import Mathlib

/-!
Verification development for the VoiceLink frontend
(`src/frontend/src/App.tsx` and `src/frontend/src/hooks/useGesture.ts`).

The TypeScript sources are embedded shallowly: React state is made explicit
as record types, the per-frame hook body and effect handlers become pure
state-transition functions, and JavaScript numbers that only ever hold
integral grid indices are modelled as `Int` (matching JS arithmetic on the
reachable, integral inputs), while blendshape scores are modelled as `Rat`.
-/

namespace VoiceLink

/-! ## Gesture classifier (`useGesture.ts` plus the dispatch effect of `App.tsx`) -/

/-- A single blendshape score entry as delivered per video frame
(`{ name: string; score: number }` in `useGesture.ts`). -/
structure BlendShape where
  name : String
  score : Rat
deriving DecidableEq

/-- Comparator of a gesture metric predicate (the `comparison: ">" | "<"`
field of the gesture specs defined in `App.tsx`, lines 1292-1361). -/
inductive Cmp where
  | gt
  | lt
deriving DecidableEq

/-- One `{ name, threshold, comparison }` entry of a gesture spec's
`metrics` array (`App.tsx`, lines 1292-1361). -/
structure GestureMetric where
  name : String
  threshold : Rat
  comparison : Cmp
deriving DecidableEq

/-- A gesture spec as the dynamically typed hook receives it.
`useGesture.ts` reads the fields `gesture.metric` and `gesture.threshold`;
the specs built in `App.tsx` do not carry those fields (modelled by `none`)
but instead carry a `metrics` array, which the hook never reads. -/
structure Gesture where
  name : String
  metric : Option String
  threshold : Option Rat
  framesRequired : Nat
  metrics : List GestureMetric
deriving DecidableEq

/-- Score lookup of `useGesture.ts` line 11-12:
`const bs = blendShapes.find((b) => b.name === gesture.metric);`
`const score = bs?.score ?? 0;`.
When `gesture.metric` is absent (`undefined`), the strict comparison
`b.name === undefined` never holds, so the score defaults to `0`. -/
def findScore (blendShapes : List BlendShape) (metric : Option String) : Rat :=
  match metric with
  | none => 0
  | some m => ((blendShapes.find? (fun b => b.name == m)).map BlendShape.score).getD 0

/-- Qualifying test of `useGesture.ts` line 14: `score >= gesture.threshold`.
When `gesture.threshold` is absent (`undefined`), the JS comparison
`score >= undefined` is `false`. -/
def hookQualifies (gesture : Gesture) (blendShapes : List BlendShape) : Bool :=
  match gesture.threshold with
  | none => false
  | some t => decide (t ≤ findScore blendShapes gesture.metric)

/-- Body of the `gestures.forEach` loop of `useGesture.ts` (lines 10-24) for a
single gesture: threading the `frameCountsRef` map (modelled as a function
`String → Nat`, absent keys reading as `0`) and the `newActive` accumulator. -/
def hookGestureStep (blendShapes : List BlendShape)
    (st : (String → Nat) × List String) (gesture : Gesture) :
    (String → Nat) × List String :=
  if hookQualifies gesture blendShapes then
    if gesture.framesRequired ≤ st.1 gesture.name + 1 then
      (fun k => if k = gesture.name then st.1 gesture.name + 1 else st.1 k,
        st.2 ++ [gesture.name])
    else
      (fun k => if k = gesture.name then st.1 gesture.name + 1 else st.1 k, st.2)
  else
    (fun k => if k = gesture.name then 0 else st.1 k, st.2)

/-- One run of the `useEffect` body of `useGesture.ts` (lines 7-27): fold the
per-gesture step over the spec list, starting from the current counters and
an empty `newActive` list.  The first component is the updated
`frameCountsRef` contents, the second the `activeGestures` state that the
hook returns for this frame. -/
def hookStep (gestures : List Gesture) (blendShapes : List BlendShape)
    (counts : String → Nat) : (String → Nat) × List String :=
  gestures.foldl (hookGestureStep blendShapes) (counts, [])

/-- The classifier state that persists across frames: the hook's
`frameCountsRef` contents and the dispatch effect's
`prevActiveGesturesRef.current` (`App.tsx` line 599 / 2483-2535). -/
structure GestureSession where
  counts : String → Nat
  prevActive : List String

/-- One full frame of the classifier pipeline: the hook computes the new
`activeGestures` list, and the dispatch effect of `App.tsx` (lines 2482-2535)
keeps only the gestures that were not active on the previous frame
(`activeGestures.filter((gesture) => !prev.includes(gesture))`) before
storing the full active list back into `prevActiveGesturesRef`.
Returns the new session and the newly activated gesture names. -/
def frameStep (gestures : List Gesture) (blendShapes : List BlendShape)
    (s : GestureSession) : GestureSession × List String :=
  let r := hookStep gestures blendShapes s.counts
  (⟨r.1, r.2⟩, r.2.filter (fun n => ¬ s.prevActive.contains n))

/-- Run the classifier pipeline over a sequence of frames, collecting the
newly activated gesture names of each frame in order. -/
def classifierRun (gestures : List Gesture) :
    GestureSession → List (List BlendShape) → List (List String)
  | _, [] => []
  | s, frame :: rest =>
    let r := frameStep gestures frame s
    r.2 :: classifierRun gestures r.1 rest

/-- The counter evolution of a single gesture over a frame sequence, starting
from counter value `c0`: incremented on a qualifying frame, reset to `0`
otherwise (`useGesture.ts` lines 14-23). -/
def hookCountAfter (g : Gesture) (c0 : Nat) (frames : List (List BlendShape)) : Nat :=
  frames.foldl (fun c f => if hookQualifies g f then c + 1 else 0) c0

/-- A gesture occurs exactly once in a spec list, split witness form: the list
is `l1 ++ g :: l2` and no other entry shares its name. -/
def UniqueIn (g : Gesture) (gestures : List Gesture) : Prop :=
  ∃ l1 l2, gestures = l1 ++ g :: l2 ∧
    (∀ g' ∈ l1, g'.name ≠ g.name) ∧ (∀ g' ∈ l2, g'.name ≠ g.name)

/-! ### Characterization of `hookStep` for a uniquely named gesture -/

theorem hookGestureStep_fst_other (blendShapes : List BlendShape)
    (st : (String → Nat) × List String) (g : Gesture) (n : String) (h : g.name ≠ n) :
    (hookGestureStep blendShapes st g).1 n = st.1 n := by
  unfold hookGestureStep
  split
  · split <;> simp [Ne.symm h]
  · simp [Ne.symm h]

theorem hookGestureStep_snd_other (blendShapes : List BlendShape)
    (st : (String → Nat) × List String) (g : Gesture) (n : String) (h : g.name ≠ n) :
    (n ∈ (hookGestureStep blendShapes st g).2 ↔ n ∈ st.2) := by
  unfold hookGestureStep
  split
  · split
    · simp [List.mem_append, Ne.symm h]
    · exact Iff.rfl
  · exact Iff.rfl

theorem hookGestureStep_fst_self (blendShapes : List BlendShape)
    (st : (String → Nat) × List String) (g : Gesture) :
    (hookGestureStep blendShapes st g).1 g.name =
      if hookQualifies g blendShapes then st.1 g.name + 1 else 0 := by
  unfold hookGestureStep
  split
  · split <;> simp
  · simp

theorem hookGestureStep_snd_self (blendShapes : List BlendShape)
    (st : (String → Nat) × List String) (g : Gesture) :
    (g.name ∈ (hookGestureStep blendShapes st g).2 ↔ g.name ∈ st.2 ∨
      (hookQualifies g blendShapes = true ∧ g.framesRequired ≤ st.1 g.name + 1)) := by
  unfold hookGestureStep
  split
  · rename_i hq
    split
    · rename_i hfr
      simp [List.mem_append, hq, hfr]
    · rename_i hfr
      simp only [iff_self_or]
      intro h
      exact absurd h.2 hfr
  · rename_i hq
    simp only [iff_self_or]
    intro h
    exact absurd h.1 hq

theorem hookFold_untouched (blendShapes : List BlendShape) (n : String) :
    ∀ (l : List Gesture) (st : (String → Nat) × List String),
      (∀ g' ∈ l, g'.name ≠ n) →
      (l.foldl (hookGestureStep blendShapes) st).1 n = st.1 n ∧
        (n ∈ (l.foldl (hookGestureStep blendShapes) st).2 ↔ n ∈ st.2) := by
  intro l
  induction l with
  | nil => intro st _; exact ⟨rfl, Iff.rfl⟩
  | cons g rest ih =>
    intro st hname
    have hg : g.name ≠ n := hname g (List.mem_cons_self g rest)
    have hrest : ∀ g' ∈ rest, g'.name ≠ n := fun g' h => hname g' (List.mem_cons_of_mem g h)
    rw [List.foldl_cons]
    obtain ⟨h1, h2⟩ := ih (hookGestureStep blendShapes st g) hrest
    exact ⟨h1.trans (hookGestureStep_fst_other blendShapes st g n hg),
      h2.trans (hookGestureStep_snd_other blendShapes st g n hg)⟩

theorem hookStep_counts (gestures : List Gesture) (g : Gesture)
    (hu : UniqueIn g gestures) (blendShapes : List BlendShape) (counts : String → Nat) :
    (hookStep gestures blendShapes counts).1 g.name =
      if hookQualifies g blendShapes then counts g.name + 1 else 0 := by
  obtain ⟨l1, l2, rfl, h1, h2⟩ := hu
  unfold hookStep
  rw [List.foldl_append, List.foldl_cons]
  obtain ⟨hc1, _⟩ := hookFold_untouched blendShapes g.name l1 (counts, []) h1
  obtain ⟨hc2, _⟩ :=
    hookFold_untouched blendShapes g.name l2
      (hookGestureStep blendShapes (l1.foldl (hookGestureStep blendShapes) (counts, [])) g) h2
  rw [hc2, hookGestureStep_fst_self, hc1]

theorem hookStep_active (gestures : List Gesture) (g : Gesture)
    (hu : UniqueIn g gestures) (blendShapes : List BlendShape) (counts : String → Nat) :
    (g.name ∈ (hookStep gestures blendShapes counts).2 ↔
      hookQualifies g blendShapes = true ∧ g.framesRequired ≤ counts g.name + 1) := by
  obtain ⟨l1, l2, rfl, h1, h2⟩ := hu
  unfold hookStep
  rw [List.foldl_append, List.foldl_cons]
  obtain ⟨hc1, hm1⟩ := hookFold_untouched blendShapes g.name l1 (counts, []) h1
  obtain ⟨_, hm2⟩ :=
    hookFold_untouched blendShapes g.name l2
      (hookGestureStep blendShapes (l1.foldl (hookGestureStep blendShapes) (counts, [])) g) h2
  rw [hm2, hookGestureStep_snd_self, hc1, hm1]
  simp

/-! ### Per-frame pipeline characterization -/

theorem frameStep_counts (gestures : List Gesture) (g : Gesture)
    (hu : UniqueIn g gestures) (f : List BlendShape) (s : GestureSession) :
    (frameStep gestures f s).1.counts g.name =
      if hookQualifies g f then s.counts g.name + 1 else 0 :=
  hookStep_counts gestures g hu f s.counts

theorem frameStep_prev_mem (gestures : List Gesture) (g : Gesture)
    (hu : UniqueIn g gestures) (f : List BlendShape) (s : GestureSession) :
    (g.name ∈ (frameStep gestures f s).1.prevActive ↔
      hookQualifies g f = true ∧ g.framesRequired ≤ s.counts g.name + 1) :=
  hookStep_active gestures g hu f s.counts

theorem frameStep_newly_mem (gestures : List Gesture) (g : Gesture)
    (hu : UniqueIn g gestures) (f : List BlendShape) (s : GestureSession) :
    (g.name ∈ (frameStep gestures f s).2 ↔
      (hookQualifies g f = true ∧ g.framesRequired ≤ s.counts g.name + 1) ∧
        g.name ∉ s.prevActive) := by
  show g.name ∈ (hookStep gestures f s.counts).2.filter _ ↔ _
  rw [List.mem_filter, hookStep_active gestures g hu f s.counts]
  simp [List.elem_iff]

/-- Pointwise characterization of the classifier run on a sustained hold:
starting from a session whose previous-frame held-state agrees with the
counter (`g.name ∈ prevActive ↔ framesRequired ≤ counts`), the gesture is
reported as newly activated on frame `i` exactly when its counter reaches
`framesRequired` on that frame. -/
theorem classifierRun_mem_of_hold (gestures : List Gesture) (g : Gesture)
    (hu : UniqueIn g gestures) :
    ∀ (frames : List (List BlendShape)) (s : GestureSession) (i : Nat),
      (∀ f ∈ frames, hookQualifies g f = true) →
      (g.name ∈ s.prevActive ↔ g.framesRequired ≤ s.counts g.name) →
      i < frames.length →
      (g.name ∈ (classifierRun gestures s frames).getD i [] ↔
        s.counts g.name + i + 1 = g.framesRequired) := by
  intro frames
  induction frames with
  | nil => intro s i _ _ hi; exact absurd hi (by simp)
  | cons f rest ih =>
    intro s i hq hinv hi
    have hqf : hookQualifies g f = true := hq f (List.mem_cons_self f rest)
    have hqrest : ∀ f' ∈ rest, hookQualifies g f' = true :=
      fun f' h => hq f' (List.mem_cons_of_mem f h)
    match i with
    | 0 =>
      show g.name ∈ (frameStep gestures f s).2 ↔ _
      rw [frameStep_newly_mem gestures g hu f s, hinv]
      constructor
      · rintro ⟨⟨_, h1⟩, h2⟩
        omega
      · intro h
        exact ⟨⟨hqf, by omega⟩, by omega⟩
    | i + 1 =>
      have hstep : (frameStep gestures f s).1.counts g.name = s.counts g.name + 1 := by
        rw [frameStep_counts gestures g hu f s, if_pos hqf]
      have hinv' : g.name ∈ (frameStep gestures f s).1.prevActive ↔
          g.framesRequired ≤ (frameStep gestures f s).1.counts g.name := by
        rw [frameStep_prev_mem gestures g hu f s, hstep]
        simp [hqf]
      have := ih (frameStep gestures f s).1 i hqrest hinv' (by simpa using Nat.lt_of_succ_lt_succ hi)
      show g.name ∈ (classifierRun gestures (frameStep gestures f s).1 rest).getD i [] ↔ _
      rw [this, hstep]
      omega

/-- Counting version: over a fully qualifying frame sequence, the gesture
appears in the newly-activated output exactly once if the hold is long enough
to reach `framesRequired` and the counter started below it, else never. -/
theorem classifierRun_countP_of_hold (gestures : List Gesture) (g : Gesture)
    (hu : UniqueIn g gestures) :
    ∀ (frames : List (List BlendShape)) (s : GestureSession),
      (∀ f ∈ frames, hookQualifies g f = true) →
      (g.name ∈ s.prevActive ↔ g.framesRequired ≤ s.counts g.name) →
      ((classifierRun gestures s frames).countP (fun l => l.contains g.name)) =
        (if g.framesRequired ≤ s.counts g.name + frames.length ∧
            s.counts g.name + 1 ≤ g.framesRequired then 1 else 0) := by
  intro frames
  induction frames with
  | nil =>
    intro s _ _
    have hno : ¬ (g.framesRequired ≤ s.counts g.name ∧
        s.counts g.name + 1 ≤ g.framesRequired) := by omega
    simp [classifierRun, hno]
  | cons f rest ih =>
    intro s hq hinv
    have hqf : hookQualifies g f = true := hq f (List.mem_cons_self f rest)
    have hqrest : ∀ f' ∈ rest, hookQualifies g f' = true :=
      fun f' h => hq f' (List.mem_cons_of_mem f h)
    have hstep : (frameStep gestures f s).1.counts g.name = s.counts g.name + 1 := by
      rw [frameStep_counts gestures g hu f s, if_pos hqf]
    have hinv' : g.name ∈ (frameStep gestures f s).1.prevActive ↔
        g.framesRequired ≤ (frameStep gestures f s).1.counts g.name := by
      rw [frameStep_prev_mem gestures g hu f s, hstep]
      simp [hqf]
    have hhead : ((frameStep gestures f s).2.contains g.name = true) ↔
        (g.framesRequired ≤ s.counts g.name + 1 ∧ s.counts g.name + 1 ≤ g.framesRequired) := by
      rw [List.elem_iff, frameStep_newly_mem gestures g hu f s, hinv]
      constructor
      · rintro ⟨⟨_, h1⟩, h2⟩; omega
      · intro h; exact ⟨⟨hqf, h.1⟩, by omega⟩
    show ((frameStep gestures f s).2 ::
        classifierRun gestures (frameStep gestures f s).1 rest).countP _ = _
    rw [List.countP_cons, ih (frameStep gestures f s).1 hqrest hinv', hstep]
    by_cases hedge : g.framesRequired ≤ s.counts g.name + 1 ∧
        s.counts g.name + 1 ≤ g.framesRequired
    · rw [if_pos (hhead.mpr hedge)]
      have h2 : ¬ (g.framesRequired ≤ s.counts g.name + 1 + rest.length ∧
          s.counts g.name + 1 + 1 ≤ g.framesRequired) := by omega
      rw [if_neg h2, if_pos (by simp; omega)]
    · have : ¬ ((frameStep gestures f s).2.contains g.name = true) := fun h => hedge (hhead.mp h)
      rw [if_neg this]
      by_cases h2 : g.framesRequired ≤ s.counts g.name + 1 + rest.length ∧
          s.counts g.name + 1 + 1 ≤ g.framesRequired
      · rw [if_pos h2, if_pos (by simp; omega)]
      · rw [if_neg h2, if_neg (by simp; omega)]

/-! ### Counter re-accumulation facts -/

theorem hookCountAfter_le (g : Gesture) :
    ∀ (frames : List (List BlendShape)) (c0 : Nat),
      hookCountAfter g c0 frames ≤ c0 + frames.length := by
  intro frames
  induction frames with
  | nil => intro c0; simp [hookCountAfter]
  | cons f rest ih =>
    intro c0
    show hookCountAfter g (if hookQualifies g f then c0 + 1 else 0) rest ≤ _
    simp only [List.length_cons]
    split
    · have := ih (c0 + 1); omega
    · have := ih 0; omega

theorem hookCountAfter_qual (g : Gesture) :
    ∀ (frames : List (List BlendShape)) (c0 j : Nat),
      j < frames.length →
      frames.length - j ≤ hookCountAfter g c0 frames →
      hookQualifies g (frames.getD j []) = true := by
  intro frames
  induction frames with
  | nil => intro c0 j h; exact absurd h (by simp)
  | cons f rest ih =>
    intro c0 j hj hcount
    have hrw : hookCountAfter g c0 (f :: rest) =
        hookCountAfter g (if hookQualifies g f then c0 + 1 else 0) rest := rfl
    match j with
    | 0 =>
      by_contra hq
      rw [hrw, if_neg (by simpa using hq)] at hcount
      have := hookCountAfter_le g rest 0
      simp at hcount
      omega
    | j + 1 =>
      have : (f :: rest).getD (j + 1) [] = rest.getD j [] := rfl
      rw [this]
      refine ih (if hookQualifies g f then c0 + 1 else 0) j (by simpa using Nat.lt_of_succ_lt_succ hj) ?_
      rw [hrw] at hcount
      simp only [List.length_cons] at hcount
      omega

/-- A gesture reported as newly activated on frame `i` of a run qualified on
that frame and its counter, evolved from the session's starting value over
the first `i + 1` frames, has reached `framesRequired`. -/
theorem classifierRun_mem_counts (gestures : List Gesture) (g : Gesture)
    (hu : UniqueIn g gestures) :
    ∀ (frames : List (List BlendShape)) (s : GestureSession) (i : Nat),
      i < frames.length →
      g.name ∈ (classifierRun gestures s frames).getD i [] →
      hookQualifies g (frames.getD i []) = true ∧
        g.framesRequired ≤ hookCountAfter g (s.counts g.name) (frames.take (i + 1)) := by
  intro frames
  induction frames with
  | nil => intro s i h; exact absurd h (by simp)
  | cons f rest ih =>
    intro s i hi hmem
    match i with
    | 0 =>
      have hmem0 : g.name ∈ (frameStep gestures f s).2 := hmem
      rw [frameStep_newly_mem gestures g hu f s] at hmem0
      obtain ⟨⟨hq, hfr⟩, _⟩ := hmem0
      refine ⟨hq, ?_⟩
      show g.framesRequired ≤ hookCountAfter g (s.counts g.name) [f]
      show g.framesRequired ≤ hookCountAfter g (if hookQualifies g f then s.counts g.name + 1 else 0) []
      rw [if_pos hq]
      exact hfr
    | i + 1 =>
      have hmem' : g.name ∈ (classifierRun gestures (frameStep gestures f s).1 rest).getD i [] := hmem
      have hstep : (frameStep gestures f s).1.counts g.name =
          if hookQualifies g f then s.counts g.name + 1 else 0 :=
        frameStep_counts gestures g hu f s
      obtain ⟨hq, hcount⟩ := ih (frameStep gestures f s).1 i (by simpa using Nat.lt_of_succ_lt_succ hi) hmem'
      refine ⟨hq, ?_⟩
      show g.framesRequired ≤ hookCountAfter g (s.counts g.name) (f :: rest.take (i + 1))
      show g.framesRequired ≤
        hookCountAfter g (if hookQualifies g f then s.counts g.name + 1 else 0) (rest.take (i + 1))
      rw [← hstep]
      exact hcount

theorem listGetD_take {α : Type _} (l : List α) (d : α) (n j : Nat) (h : j < n) :
    (l.take n).getD j d = l.getD j d := by
  simp [List.getD_eq_getElem?_getD, List.getElem?_take, h]

/-! ### The gesture specs of `App.tsx` (lines 1292-1361)

The `onActivate` callbacks are external side effects (console logging,
keyboard/popup toggles) and are not part of the embedded data. -/

/-- Gesture spec `Select` of `App.tsx`. -/
def selectGesture : Gesture :=
  { name := "Select", metric := none, threshold := none, framesRequired := 1,
    metrics := [⟨"jawOpen", 0.4, .gt⟩] }

/-- Gesture spec `Left` of `App.tsx`. -/
def leftGesture : Gesture :=
  { name := "Left", metric := none, threshold := none, framesRequired := 1,
    metrics := [⟨"mouthLeft", 0.50, .gt⟩] }

/-- Gesture spec `Right` of `App.tsx`. -/
def rightGesture : Gesture :=
  { name := "Right", metric := none, threshold := none, framesRequired := 1,
    metrics := [⟨"mouthRight", 0.50, .gt⟩] }

/-- Gesture spec `Up` of `App.tsx`. -/
def upGesture : Gesture :=
  { name := "Up", metric := none, threshold := none, framesRequired := 1,
    metrics := [⟨"browOuterUpLeft", 0.7, .gt⟩] }

/-- Gesture spec `Down` of `App.tsx`. -/
def downGesture : Gesture :=
  { name := "Down", metric := none, threshold := none, framesRequired := 1,
    metrics := [⟨"browDownLeft", 0.025, .gt⟩, ⟨"browDownRight", 0.025, .gt⟩] }

/-- Gesture spec `Open keyboard` of `App.tsx`. -/
def openKeyboardGesture : Gesture :=
  { name := "Open keyboard", metric := none, threshold := none, framesRequired := 1,
    metrics := [⟨"mouthSmileLeft", 0.5, .gt⟩, ⟨"jawOpen", 0.15, .lt⟩] }

/-- Gesture spec `Left Wink` of `App.tsx`. -/
def leftWinkGesture : Gesture :=
  { name := "Left Wink", metric := none, threshold := none, framesRequired := 1,
    metrics := [⟨"eyeBlinkLeft", 0.4, .gt⟩, ⟨"eyeBlinkRight", 0.3, .lt⟩] }

/-- Gesture spec `Right Wink` of `App.tsx`. -/
def rightWinkGesture : Gesture :=
  { name := "Right Wink", metric := none, threshold := none, framesRequired := 1,
    metrics := [⟨"eyeBlinkRight", 0.4, .gt⟩, ⟨"eyeBlinkLeft", 0.3, .lt⟩] }

/-- The full gesture list of `App.tsx` (the `gestures` memo, lines 1292-1361). -/
def appGestures : List Gesture :=
  [selectGesture, leftGesture, rightGesture, upGesture, downGesture,
    openKeyboardGesture, leftWinkGesture, rightWinkGesture]

/-- Evaluation of a gesture spec's `metrics` predicates as the specification
describes the classifier (spec §4.1 and claim C4): every
`(metricName, threshold, comparator)` entry must hold simultaneously against
the score vector, a metric missing from the vector reading as score `0`.
This follows the spec's words; it is stated only to be compared against the
hook's actual test `hookQualifies`, which never reads the `metrics` array. -/
def specMetricsHold (g : Gesture) (blendShapes : List BlendShape) : Bool :=
  g.metrics.all fun m =>
    match m.comparison with
    | .gt => decide (m.threshold < findScore blendShapes (some m.name))
    | .lt => decide (findScore blendShapes (some m.name) < m.threshold)

/-- A score vector on which all of the `Open keyboard` spec's predicates hold
(`mouthSmileLeft > 0.5` and `jawOpen < 0.15`). -/
def c4Scores : List BlendShape := [⟨"mouthSmileLeft", 0.9⟩, ⟨"jawOpen", 0⟩]

/-- C4: the claim says the classifier evaluates all of a spec's
`(metricName, threshold, comparator)` predicates and increments the
consecutive-frame counter iff they all hold.  The hook in `useGesture.ts`
instead reads the absent fields `gesture.metric` / `gesture.threshold` of the
specs `App.tsx` passes, so on a score vector where all of the
`Open keyboard` predicates hold (as `specMetricsHold` certifies), the
counter — here previously `3` — is reset to `0` and the gesture is not
reported active, contradicting the claim. -/
theorem c4_hook_ignores_metrics :
    specMetricsHold openKeyboardGesture c4Scores = true ∧
      (hookStep appGestures c4Scores (fun _ => 3)).1 "Open keyboard" = 0 ∧
      "Open keyboard" ∉ (hookStep appGestures c4Scores (fun _ => 3)).2 := by
  refine ⟨?_, by decide, by decide⟩
  have h1 : findScore c4Scores (some "mouthSmileLeft") = 0.9 := by
    simp only [findScore]
    rw [show c4Scores = [⟨"mouthSmileLeft", 0.9⟩, ⟨"jawOpen", 0⟩] from rfl,
      List.find?_cons_of_pos _ (by decide)]
    rfl
  have h2 : findScore c4Scores (some "jawOpen") = 0 := by
    simp only [findScore]
    rw [show c4Scores = [⟨"mouthSmileLeft", 0.9⟩, ⟨"jawOpen", 0⟩] from rfl,
      List.find?_cons_of_neg _ (by decide), List.find?_cons_of_pos _ (by decide)]
    rfl
  simp only [specMetricsHold, openKeyboardGesture, List.all_cons, List.all_nil, h1, h2]
  norm_num

/-- C2: for every spec list in which the gesture's name occurs uniquely and
every frame sequence on which the gesture's qualifying test holds throughout,
if the hold is at least `framesRequired` frames long and the counter starts
at `0` with the gesture not previously active, the pipeline (hook plus the
dispatch effect's rising-edge filter) reports the gesture exactly once over
the whole hold, namely on the frame where the counter reaches
`framesRequired`. -/
theorem c2_sustained_hold_activates_once (gestures : List Gesture) (g : Gesture)
    (frames : List (List BlendShape)) (s : GestureSession)
    (hu : UniqueIn g gestures)
    (hfr : 1 ≤ g.framesRequired)
    (hlen : g.framesRequired ≤ frames.length)
    (hqual : ∀ f ∈ frames, hookQualifies g f = true)
    (hc : s.counts g.name = 0)
    (hp : g.name ∉ s.prevActive) :
    (classifierRun gestures s frames).countP (fun l => l.contains g.name) = 1 ∧
      g.name ∈ (classifierRun gestures s frames).getD (g.framesRequired - 1) [] := by
  have hinv : g.name ∈ s.prevActive ↔ g.framesRequired ≤ s.counts g.name := by
    constructor
    · intro h; exact absurd h hp
    · intro h; rw [hc] at h; omega
  constructor
  · rw [classifierRun_countP_of_hold gestures g hu frames s hqual hinv, hc]
    rw [if_pos ⟨by omega, by omega⟩]
  · rw [classifierRun_mem_of_hold gestures g hu frames s (g.framesRequired - 1) hqual hinv
      (by omega), hc]
    omega

/-- Demonstration gesture in the field shape the hook actually reads
(`metric` / `threshold` present), used to instantiate the classifier
theorems on concrete frame sequences. -/
def demoGesture : Gesture :=
  { name := "Select", metric := some "jawOpen", threshold := some 2,
    framesRequired := 2, metrics := [] }

/-- A frame on which `demoGesture` qualifies (`jawOpen` score `3 ≥ 2`). -/
def demoFrame : List BlendShape := [⟨"jawOpen", 3⟩]

/-- A frame on which `demoGesture` does not qualify (`jawOpen` score `1`). -/
def failFrame : List BlendShape := [⟨"jawOpen", 1⟩]

/-- Witness for C2: a three-frame sustained hold of `demoGesture`
(`framesRequired = 2`) activates exactly once, on frame index `1`. -/
theorem c2_witness :
    (1 ≤ demoGesture.framesRequired ∧
      demoGesture.framesRequired ≤ ([demoFrame, demoFrame, demoFrame] : List _).length) ∧
      ((classifierRun [demoGesture] ⟨fun _ => 0, []⟩
          [demoFrame, demoFrame, demoFrame]).countP (fun l => l.contains "Select") = 1 ∧
        "Select" ∈ (classifierRun [demoGesture] ⟨fun _ => 0, []⟩
          [demoFrame, demoFrame, demoFrame]).getD (demoGesture.framesRequired - 1) []) :=
  ⟨⟨by decide, by decide⟩,
    c2_sustained_hold_activates_once [demoGesture] demoGesture
      [demoFrame, demoFrame, demoFrame] ⟨fun _ => 0, []⟩
      ⟨[], [], rfl, by simp, by simp⟩ (by decide) (by decide) (by decide) rfl (by decide)⟩

/-- C9: (a) a frame on which the gesture's qualifying test fails resets its
consecutive-frame counter to `0`; (b) starting from counter `0`, whenever the
gesture is reported newly activated on frame `i`, at least `framesRequired`
frames have elapsed and the last `framesRequired` frames up to and including
`i` all qualified — so after any reset the gesture must re-accumulate
`framesRequired` consecutive qualifying frames before activating again. -/
theorem c9_requalification (gestures : List Gesture) (g : Gesture)
    (hu : UniqueIn g gestures) :
    (∀ (blendShapes : List BlendShape) (counts : String → Nat),
        hookQualifies g blendShapes = false →
        (hookStep gestures blendShapes counts).1 g.name = 0) ∧
      (∀ (frames : List (List BlendShape)) (s : GestureSession) (i : Nat),
        s.counts g.name = 0 → i < frames.length →
        g.name ∈ (classifierRun gestures s frames).getD i [] →
        g.framesRequired ≤ i + 1 ∧
          ∀ j, j ≤ i → i + 1 ≤ j + g.framesRequired →
            hookQualifies g (frames.getD j []) = true) := by
  constructor
  · intro blendShapes counts hq
    rw [hookStep_counts gestures g hu blendShapes counts, if_neg (by simp [hq])]
  · intro frames s i hc hi hmem
    obtain ⟨_, hcount⟩ := classifierRun_mem_counts gestures g hu frames s i hi hmem
    rw [hc] at hcount
    have htake : (frames.take (i + 1)).length = i + 1 := by
      rw [List.length_take]; omega
    have hle := hookCountAfter_le g (frames.take (i + 1)) 0
    constructor
    · omega
    · intro j hj hjfr
      have hq2 := hookCountAfter_qual g (frames.take (i + 1)) 0 j (by omega) (by omega)
      rwa [listGetD_take frames [] (i + 1) j (by omega)] at hq2

/-- Witness for C9: a failing frame resets `demoGesture`'s counter from `5`
to `0`; and in the run `[qualify, qualify]` from counter `0` the activation
on frame `1` implies the window back to frame `0` qualified. -/
theorem c9_witness :
    ((hookStep [demoGesture] failFrame (fun _ => 5)).1 "Select" = 0) ∧
      (demoGesture.framesRequired ≤ 1 + 1 ∧
        hookQualifies demoGesture ([demoFrame, demoFrame].getD 0 []) = true) :=
  ⟨(c9_requalification [demoGesture] demoGesture ⟨[], [], rfl, by simp, by simp⟩).1
      failFrame (fun _ => 5) (by decide),
    (fun h => ⟨h.1, h.2 0 (by decide) (by decide)⟩)
      ((c9_requalification [demoGesture] demoGesture ⟨[], [], rfl, by simp, by simp⟩).2
        [demoFrame, demoFrame] ⟨fun _ => 0, []⟩ 1 rfl (by decide) (by decide))⟩

/-! ## Models of the JavaScript string builtins

`String.trim`, `String.toLowerCase`, `String.prototype.startsWith` and
`Array.prototype.join` are modelled by executable character-list functions
(the inputs of this development are ASCII). -/

/-- Model of JS `String.prototype.trim`: strip leading and trailing
whitespace. -/
def jsTrim (s : String) : String :=
  ⟨((s.data.dropWhile Char.isWhitespace).reverse.dropWhile Char.isWhitespace).reverse⟩

/-- Lower-case a single ASCII character. -/
def charToLower (c : Char) : Char :=
  if 'A' ≤ c ∧ c ≤ 'Z' then Char.ofNat (c.toNat + 32) else c

/-- Model of JS `String.prototype.toLowerCase` on ASCII strings. -/
def jsToLower (s : String) : String := ⟨s.data.map charToLower⟩

/-- Model of JS `String.prototype.startsWith`. -/
def jsStartsWith (s pre : String) : Bool := pre.data.isPrefixOf s.data

/-- Model of JS `Array.prototype.join(sep)`. -/
def jsJoin (sep : String) : List String → String
  | [] => ""
  | [x] => x
  | x :: xs => x ++ sep ++ jsJoin sep xs

/-! ## Suggestion tree normalization (`requestSuggestions`, `App.tsx` lines 672-711) -/

/-- A normalized suggestion-tree node (`SuggestionNode` type of `App.tsx`).
The TS type marks `next` optional, but `normalizeNode` materializes it on
every constructed value and consumers default a missing `next` to `[]`
(`selectedNode.next ?? []`), so the embedding carries the list directly. -/
inductive SuggestionNode where
  | mk (word : String) (next : List SuggestionNode)

/-- Word of a suggestion node. -/
def SuggestionNode.word : SuggestionNode → String
  | .mk w _ => w

/-- Children of a suggestion node. -/
def SuggestionNode.next : SuggestionNode → List SuggestionNode
  | .mk _ n => n

/-- A raw suggestion node as received from the suggestion service, before
normalization.  Dynamically, `node.word` may be missing or not a string
(both behave identically in `normalizeNode`, modelled by `none`) and
`node.next` may be missing or not an array (modelled by `none`). A `null`
or non-object array entry behaves exactly like a node with no string
`word`, so it is represented the same way. -/
inductive RawNode where
  | mk (word : Option String) (next : Option (List RawNode))

mutual

/-- Lines 675-684 of `App.tsx`: reject a node without a string `word` or
whose trimmed word is empty; default a missing/non-array `next` to `[]`;
recursively normalize and filter the children. -/
def normalizeNode : RawNode → Option SuggestionNode
  | .mk none _ => none
  | .mk (some w) nx =>
    if jsTrim w = "" then none
    else some (.mk (jsTrim w) (match nx with
      | some l => normalizeList l
      | none => []))

/-- The `nextRaw.map(normalizeNode).filter(Boolean)` part of line 680-682,
fused into one pass. -/
def normalizeList : List RawNode → List SuggestionNode
  | [] => []
  | n :: ns =>
    match normalizeNode n with
    | some v => v :: normalizeList ns
    | none => normalizeList ns

end

mutual

/-- A normalized node is good when its word is nonempty and all its children
are good. -/
def nodeGood : SuggestionNode → Bool
  | .mk w next => decide (w ≠ "") && nodesGood next

/-- All nodes of a list are good. -/
def nodesGood : List SuggestionNode → Bool
  | [] => true
  | n :: ns => nodeGood n && nodesGood ns

end

/-- A sentence suggestion (`SentenceSuggestion` type of `App.tsx`). -/
structure SentenceSuggestion where
  style : String
  text : String
deriving DecidableEq

/-- A raw sentence entry from the service: `style` and `text` may each be
missing or not a string (modelled by `none`). -/
structure RawSentence where
  style : Option String
  text : Option String

/-- Lines 690-700 of `App.tsx`: trim and lower-case the style (empty when
not a string), trim the text, drop entries with empty text, default an
empty style to `"smart"`. -/
def normalizeSentence (entry : RawSentence) : Option SentenceSuggestion :=
  let style := match entry.style with
    | some s => jsToLower (jsTrim s)
    | none => ""
  let text := match entry.text with
    | some t => jsTrim t
    | none => ""
  if text = "" then none
  else some ⟨if style = "" then "smart" else style, text⟩

/-- Rank of a sentence style in the preferred order
`["smart", "funny", "casual"]` (lines 702-708); unknown styles rank last. -/
def styleRank (style : String) : Nat :=
  if style = "smart" then 0
  else if style = "funny" then 1
  else if style = "casual" then 2
  else 3

/-- Insertion step of a stable sort by style rank: walk past the elements of
strictly smaller rank and place the inserted element before the first one of
equal or greater rank. -/
def insertSorted (x : SentenceSuggestion) : List SentenceSuggestion → List SentenceSuggestion
  | [] => [x]
  | y :: ys =>
    if styleRank x.style ≤ styleRank y.style then x :: y :: ys
    else y :: insertSorted x ys

/-- Model of the stable sort by style rank of lines 703-709 (the JS
`Array.prototype.sort` with comparator `safeRankA - safeRankB` is stable, so
it produces the unique rank-ordered permutation keeping equal-rank entries
in input order).  Folding `insertSorted` from the right inserts each element
before the equal-rank elements already placed — which came from later in the
input — so ties keep input order; `sortByRank_stable` proves this. -/
def sortByRank (l : List SentenceSuggestion) : List SentenceSuggestion :=
  l.foldr insertSorted []

/-- The complete sentence pipeline of `requestSuggestions`: normalize and
filter the raw entries, sort by preferred style rank, cap at 3
(`normalizedSentences.slice(0, 3)`, line 711). -/
def normalizeSentencesPipeline (raw : List RawSentence) : List SentenceSuggestion :=
  (sortByRank (raw.filterMap normalizeSentence)).take 3

/-- Adjacent-pairs check that a sentence list is ordered by style rank. -/
def rankSorted : List SentenceSuggestion → Bool
  | [] => true
  | [_] => true
  | a :: b :: t => decide (styleRank a.style ≤ styleRank b.style) && rankSorted (b :: t)

/-- The raw suggestion-service response body: `suggestions` and `sentences`
may each be missing or not an array (`Array.isArray` guards, lines 672-673),
modelled by `none`. -/
structure RawSuggestResponse where
  suggestions : Option (List RawNode)
  sentences : Option (List RawSentence)

theorem normalize_good_aux : ∀ (k : Nat),
    (∀ (r : RawNode) (n : SuggestionNode), sizeOf r ≤ k →
      normalizeNode r = some n → nodeGood n = true) ∧
    (∀ (l : List RawNode), sizeOf l ≤ k → nodesGood (normalizeList l) = true) := by
  intro k
  induction k with
  | zero =>
    constructor
    · intro r n hs _
      cases r
      simp at hs
    · intro l hs
      cases l with
      | nil => rfl
      | cons a t =>
        cases a
        simp at hs
  | succ k ih =>
    constructor
    · intro r n hs h
      match r with
      | .mk none nx => simp [normalizeNode] at h
      | .mk (some w) none =>
        simp only [normalizeNode] at h
        split at h
        · exact absurd h (by simp)
        · rename_i hne
          cases h
          simp only [nodeGood, Bool.and_eq_true, decide_eq_true_eq]
          exact ⟨hne, rfl⟩
      | .mk (some w) (some l) =>
        simp only [normalizeNode] at h
        split at h
        · exact absurd h (by simp)
        · rename_i hne
          cases h
          simp only [nodeGood, Bool.and_eq_true, decide_eq_true_eq]
          refine ⟨hne, ih.2 l ?_⟩
          simp at hs
          omega
    · intro l hs
      match l with
      | [] => rfl
      | r :: rs =>
        have hr : sizeOf r ≤ k := by
          cases r
          simp at hs ⊢
          omega
        have hrs : sizeOf rs ≤ k := by
          cases r
          simp at hs
          omega
        simp only [normalizeList]
        cases hn : normalizeNode r with
        | none => exact ih.2 rs hrs
        | some v =>
          simp only [nodesGood, Bool.and_eq_true]
          exact ⟨ih.1 r v hr hn, ih.2 rs hrs⟩

theorem normalizeList_good (l : List RawNode) : nodesGood (normalizeList l) = true :=
  (normalize_good_aux (sizeOf l)).2 l le_rfl

theorem rankSorted_insertSorted (x : SentenceSuggestion) :
    ∀ l, rankSorted l = true → rankSorted (insertSorted x l) = true := by
  intro l
  induction l with
  | nil => intro _; rfl
  | cons y ys ih =>
    intro hs
    rw [insertSorted]
    split
    · rename_i hxy
      rw [rankSorted]
      simp [hxy, hs]
    · rename_i hxy
      have hyx : styleRank y.style ≤ styleRank x.style := by omega
      cases ys with
      | nil => simp [insertSorted, rankSorted, hyx]
      | cons z zs =>
        rw [rankSorted, Bool.and_eq_true] at hs
        have hyz : styleRank y.style ≤ styleRank z.style := of_decide_eq_true hs.1
        have hins := ih hs.2
        rw [insertSorted]
        rw [insertSorted] at hins
        split
        · rename_i hxz
          rw [if_pos hxz] at hins
          rw [rankSorted]
          simp [hyx, hins]
        · rename_i hxz
          rw [if_neg hxz] at hins
          rw [rankSorted]
          simp [hyz, hins]

theorem rankSorted_sortByRank (l : List SentenceSuggestion) :
    rankSorted (sortByRank l) = true := by
  induction l with
  | nil => rfl
  | cons a t ih =>
    rw [sortByRank, List.foldr_cons]
    exact rankSorted_insertSorted a _ ih

theorem rankSorted_take :
    ∀ (l : List SentenceSuggestion) (n : Nat),
      rankSorted l = true → rankSorted (l.take n) = true := by
  intro l
  induction l with
  | nil => intro n _; rw [List.take_nil]; rfl
  | cons a t ih =>
    intro n hs
    match n with
    | 0 => rfl
    | n + 1 =>
      cases t with
      | nil => simp [rankSorted]
      | cons b t2 =>
        match n with
        | 0 => rfl
        | m + 1 =>
          rw [rankSorted, Bool.and_eq_true] at hs
          have hbt := ih (m + 1) hs.2
          show rankSorted (a :: b :: t2.take m) = true
          rw [rankSorted]
          simp only [Bool.and_eq_true, decide_eq_true_eq]
          exact ⟨of_decide_eq_true hs.1, hbt⟩

theorem all_insertSorted (p : SentenceSuggestion → Bool) (x : SentenceSuggestion) :
    ∀ l, (insertSorted x l).all p = (p x && l.all p) := by
  intro l
  induction l with
  | nil => simp [insertSorted]
  | cons y ys ih =>
    rw [insertSorted]
    split
    · simp [List.all_cons]
    · rw [List.all_cons, ih, List.all_cons]
      cases p x <;> cases p y <;> simp

theorem all_sortByRank (p : SentenceSuggestion → Bool) :
    ∀ l, (sortByRank l).all p = l.all p := by
  intro l
  induction l with
  | nil => rfl
  | cons a t ih =>
    rw [sortByRank, List.foldr_cons, all_insertSorted, List.all_cons]
    rw [sortByRank] at ih
    rw [ih]

theorem all_take (p : SentenceSuggestion → Bool) (l : List SentenceSuggestion) (n : Nat)
    (h : l.all p = true) : (l.take n).all p = true := by
  rw [List.all_eq_true] at h ⊢
  intro x hx
  exact h x (List.take_subset n l hx)

theorem filter_insertSorted (r : Nat) (x : SentenceSuggestion) :
    ∀ l : List SentenceSuggestion,
      (insertSorted x l).filter (fun s => decide (styleRank s.style = r)) =
        if styleRank x.style = r
          then x :: l.filter (fun s => decide (styleRank s.style = r))
          else l.filter (fun s => decide (styleRank s.style = r)) := by
  intro l
  induction l with
  | nil =>
    rw [insertSorted]
    by_cases hx : styleRank x.style = r
    · rw [if_pos hx]
      simp [List.filter, hx]
    · rw [if_neg hx]
      simp [List.filter, hx]
  | cons y ys ih =>
    rw [insertSorted]
    split
    · by_cases hx : styleRank x.style = r
      · rw [if_pos hx]
        rw [List.filter_cons_of_pos (by simp [hx])]
      · rw [if_neg hx]
        rw [List.filter_cons_of_neg (by simp [hx])]
    · rename_i hxy
      by_cases hy : styleRank y.style = r
      · rw [List.filter_cons_of_pos (by simp [hy]), ih,
          List.filter_cons_of_pos (by simp [hy])]
        have hx : ¬ styleRank x.style = r := by omega
        rw [if_neg hx, if_neg hx]
      · rw [List.filter_cons_of_neg (by simp [hy]), ih,
          List.filter_cons_of_neg (by simp [hy])]

/-- Stability of the modelled sort: for every rank, the equal-rank entries of
`sortByRank l` are exactly those of `l`, in the same order — as the stable JS
`Array.prototype.sort` guarantees. -/
theorem sortByRank_stable (r : Nat) :
    ∀ l : List SentenceSuggestion,
      (sortByRank l).filter (fun s => decide (styleRank s.style = r)) =
        l.filter (fun s => decide (styleRank s.style = r)) := by
  intro l
  induction l with
  | nil => rfl
  | cons a t ih =>
    rw [sortByRank, List.foldr_cons]
    rw [sortByRank] at ih
    rw [filter_insertSorted, ih]
    by_cases hx : styleRank a.style = r
    · rw [if_pos hx, List.filter_cons_of_pos (by simp [hx])]
    · rw [if_neg hx, List.filter_cons_of_neg (by simp [hx])]

theorem normalizeSentence_text (e : RawSentence) (s : SentenceSuggestion)
    (h : normalizeSentence e = some s) : s.text ≠ "" := by
  simp only [normalizeSentence] at h
  split at h
  · exact absurd h (by simp)
  · rename_i hne
    cases h
    exact hne

theorem filterMap_sentence_texts (l : List RawSentence) :
    (l.filterMap normalizeSentence).all (fun s => decide (s.text ≠ "")) = true := by
  induction l with
  | nil => rfl
  | cons e t ih =>
    rw [List.filterMap_cons]
    cases he : normalizeSentence e with
    | none => exact ih
    | some s =>
      rw [List.all_cons, Bool.and_eq_true]
      have hne := normalizeSentence_text e s he
      exact ⟨by simp [hne], ih⟩

/-- C8 (amended): for every suggestion-service response, normalization drops
nodes whose word is missing, not a string, or empty after trimming (every
surviving node, recursively, has a nonempty word), a missing or non-array
`next` behaves exactly like an empty children array, and the sentence list
applied to the model is ordered by the preferred style order
(`smart`, `funny`, `casual`, then others), capped at 3 entries, all with
nonempty text.  (The original claim's deduplication does not exist in the
code; see the counterexample.) -/
theorem c8_normalization_amended (resp : RawSuggestResponse) :
    nodesGood (normalizeList (resp.suggestions.getD [])) = true ∧
      (∀ w : Option String, normalizeNode (.mk w none) = normalizeNode (.mk w (some []))) ∧
      rankSorted (normalizeSentencesPipeline (resp.sentences.getD [])) = true ∧
      (normalizeSentencesPipeline (resp.sentences.getD [])).length ≤ 3 ∧
      (normalizeSentencesPipeline (resp.sentences.getD [])).all
        (fun s => decide (s.text ≠ "")) = true := by
  refine ⟨normalizeList_good _, ?_, ?_, ?_, ?_⟩
  · intro w
    cases w <;> rfl
  · exact rankSorted_take _ 3 (rankSorted_sortByRank _)
  · exact List.length_take_le 3 _
  · rw [normalizeSentencesPipeline]
    exact all_take _ _ 3 (by rw [all_sortByRank]; exact filterMap_sentence_texts _)

/-- A service response carrying the same sentence twice. -/
def dupSentenceRaw : List RawSentence :=
  [⟨some "smart", some "hi"⟩, ⟨some "smart", some "hi"⟩]

/-- C8 counterexample: the claim says the sentence list applied to the model
is deduplicated, but the pipeline (normalize, sort by style rank, cap at 3)
performs no deduplication: a response repeating the sentence
`{style: "smart", text: "hi"}` yields the duplicate pair unchanged. -/
theorem c8_counterexample :
    normalizeSentencesPipeline dupSentenceRaw =
      [⟨"smart", "hi"⟩, ⟨"smart", "hi"⟩] ∧
      ¬ (normalizeSentencesPipeline dupSentenceRaw).Nodup := by
  constructor
  · decide
  · decide

/-! ## Keyboard grid construction (`keyboardData` memo, `App.tsx` lines 516-588) -/

/-- The `KeyboardAction` union type of `App.tsx` (lines 53-60). -/
inductive KeyboardAction where
  | input
  | space
  | backspace
  | clear
  | enter
  | suggestion
  | noop
deriving DecidableEq

/-- A key description as found in `KEYBOARD_LAYOUT` and in the synthetic
suggestion row (lines 180-226, 543-549).  The TS type also declares an
optional `span`, but `keyboardData` never reads it and `KEYBOARD_LAYOUT`
never sets it, so it is not carried. -/
structure KeyDef where
  label : String
  value : Option String
  action : Option KeyboardAction
deriving DecidableEq

/-- The `KeyboardGridOption` type of `App.tsx` (lines 62-72). -/
structure KeyboardGridOption where
  label : String
  value : Option String
  action : KeyboardAction
  row : Nat
  column : Nat
  rowStartIndex : Nat
  rowLength : Nat
  indexInKeyboard : Nat
deriving DecidableEq

/-- The `row.map((key, columnIndex) => ...)` body of lines 565-581: build the
options of one keyboard row, walking the keys with their column index.
`baseValue` is `key.value ?? (action === "input" ? key.label.toLowerCase()
: undefined)`. -/
def buildRowOptions (rowIndex rowStartIndex rowLength : Nat) :
    List KeyDef → Nat → List KeyboardGridOption
  | [], _ => []
  | key :: rest, columnIndex =>
    { label := key.label,
      value := match key.value with
        | some v => some v
        | none => if key.action.getD .input = .input then some (jsToLower key.label) else none,
      action := key.action.getD .input,
      row := rowIndex,
      column := columnIndex,
      rowStartIndex := rowStartIndex,
      rowLength := rowLength,
      indexInKeyboard := rowStartIndex + columnIndex } ::
      buildRowOptions rowIndex rowStartIndex rowLength rest (columnIndex + 1)

/-- The `dynamicRows.forEach` fold of lines 560-585, generalized over the
starting row index and option count: returns the flattened options, the
`rowStarts` array and the `rowLengths` array. -/
def buildKeyboardAux : List (List KeyDef) → Nat → Nat →
    List KeyboardGridOption × List Nat × List Nat
  | [], _, _ => ([], [], [])
  | row :: rest, rowIndex, startIndex =>
    let rowOptions := buildRowOptions rowIndex startIndex row.length row 0
    let r := buildKeyboardAux rest (rowIndex + 1) (startIndex + row.length)
    (rowOptions ++ r.1, startIndex :: r.2.1, row.length :: r.2.2)

/-- The full keyboard build over the dynamic rows. -/
def buildKeyboard (rows : List (List KeyDef)) :
    List KeyboardGridOption × List Nat × List Nat :=
  buildKeyboardAux rows 0 0

/-- Total number of keys across rows. -/
def rowsTotal (rows : List (List KeyDef)) : Nat :=
  (rows.map List.length).sum

theorem buildRowOptions_length (rowIndex rowStartIndex rowLength : Nat) :
    ∀ (keys : List KeyDef) (columnIndex : Nat),
      (buildRowOptions rowIndex rowStartIndex rowLength keys columnIndex).length =
        keys.length := by
  intro keys
  induction keys with
  | nil => intro c; rfl
  | cons k rest ih =>
    intro c
    rw [buildRowOptions]
    simp [ih]

theorem buildKeyboardAux_length (rows : List (List KeyDef)) :
    ∀ (rowIndex startIndex : Nat),
      (buildKeyboardAux rows rowIndex startIndex).1.length = rowsTotal rows := by
  induction rows with
  | nil => intro r s; rfl
  | cons row rest ih =>
    intro r s
    rw [buildKeyboardAux]
    simp [rowsTotal, buildRowOptions_length, ih]

theorem buildRowOptions_mem (rowIndex rowStartIndex rowLength : Nat) :
    ∀ (keys : List KeyDef) (columnIndex : Nat) (o : KeyboardGridOption),
      o ∈ buildRowOptions rowIndex rowStartIndex rowLength keys columnIndex →
      o.row = rowIndex ∧ o.rowStartIndex = rowStartIndex ∧ o.rowLength = rowLength ∧
        columnIndex ≤ o.column ∧ o.column < columnIndex + keys.length ∧
        o.indexInKeyboard = rowStartIndex + o.column := by
  intro keys
  induction keys with
  | nil => intro c o h; exact absurd h (by simp [buildRowOptions])
  | cons k rest ih =>
    intro c o h
    rw [buildRowOptions] at h
    rcases List.mem_cons.mp h with h1 | h2
    · subst h1
      refine ⟨rfl, rfl, rfl, le_refl c, by simp, rfl⟩
    · obtain ⟨ha, hb, hc, hd, he, hf⟩ := ih (c + 1) o h2
      exact ⟨ha, hb, hc, by omega, by simp only [List.length_cons]; omega, hf⟩

theorem buildKeyboardAux_mem (rows : List (List KeyDef)) :
    ∀ (rowIndex startIndex : Nat) (o : KeyboardGridOption),
      o ∈ (buildKeyboardAux rows rowIndex startIndex).1 →
      rowIndex ≤ o.row ∧
        (buildKeyboardAux rows rowIndex startIndex).2.1.get? (o.row - rowIndex) =
          some o.rowStartIndex ∧
        (buildKeyboardAux rows rowIndex startIndex).2.2.get? (o.row - rowIndex) =
          some o.rowLength ∧
        o.column < o.rowLength ∧
        startIndex ≤ o.rowStartIndex ∧
        o.rowStartIndex + o.rowLength ≤ startIndex + rowsTotal rows ∧
        o.indexInKeyboard = o.rowStartIndex + o.column := by
  induction rows with
  | nil => intro r s o h; exact absurd h (by simp [buildKeyboardAux])
  | cons row rest ih =>
    intro r s o h
    rw [buildKeyboardAux] at h ⊢
    rcases List.mem_append.mp h with h1 | h2
    · obtain ⟨ha, hb, hc, hd, he, hf⟩ := buildRowOptions_mem r s row.length row 0 o h1
      have hrr : o.row - r = 0 := by omega
      refine ⟨by omega, ?_, ?_, by omega, by omega, ?_, by rw [hf, hb]⟩
      · rw [hrr, List.get?_cons_zero, hb]
      · rw [hrr, List.get?_cons_zero, hc]
      · have ht : rowsTotal (row :: rest) = row.length + rowsTotal rest := by
          simp [rowsTotal]
        omega
    · obtain ⟨ha, hb, hc, hd, he, hf, hg⟩ := ih (r + 1) (s + row.length) o h2
      have hrr : o.row - r = (o.row - (r + 1)) + 1 := by omega
      refine ⟨by omega, ?_, ?_, hd, by omega, ?_, hg⟩
      · rw [hrr, List.get?_cons_succ]
        exact hb
      · rw [hrr, List.get?_cons_succ]
        exact hc
      · have ht : rowsTotal (row :: rest) = row.length + rowsTotal rest := by
          simp [rowsTotal]
        omega

theorem buildKeyboardAux_starts (rows : List (List KeyDef)) :
    ∀ (rowIndex startIndex : Nat) (j x : Nat),
      (buildKeyboardAux rows rowIndex startIndex).2.1.get? j = some x →
      startIndex ≤ x ∧
        x + (buildKeyboardAux rows rowIndex startIndex).2.2.getD j 0 ≤
          startIndex + rowsTotal rows := by
  induction rows with
  | nil => intro r s j x h; exact absurd h (by simp [buildKeyboardAux])
  | cons row rest ih =>
    intro r s j x h
    rw [buildKeyboardAux] at h ⊢
    match j with
    | 0 =>
      rw [List.get?_cons_zero] at h
      injection h with h
      subst h
      have ht : rowsTotal (row :: rest) = row.length + rowsTotal rest := by
        simp [rowsTotal]
      rw [List.getD_cons_zero]
      omega
    | j + 1 =>
      rw [List.get?_cons_succ] at h
      obtain ⟨h1, h2⟩ := ih (r + 1) (s + row.length) j x h
      have ht : rowsTotal (row :: rest) = row.length + rowsTotal rest := by
        simp [rowsTotal]
      rw [List.getD_cons_succ]
      omega

theorem buildRowOptions_get (rowIndex rowStartIndex rowLength : Nat) :
    ∀ (keys : List KeyDef) (columnIndex i : Nat) (o : KeyboardGridOption),
      (buildRowOptions rowIndex rowStartIndex rowLength keys columnIndex).get? i =
        some o →
      o.indexInKeyboard = rowStartIndex + columnIndex + i := by
  intro keys
  induction keys with
  | nil => intro c i o h; exact absurd h (by simp [buildRowOptions])
  | cons k rest ih =>
    intro c i o h
    rw [buildRowOptions] at h
    match i with
    | 0 =>
      simp at h
      subst h
      rfl
    | i + 1 =>
      simp only [List.get?_cons_succ] at h
      have := ih (c + 1) i o h
      omega

theorem buildKeyboardAux_get (rows : List (List KeyDef)) :
    ∀ (rowIndex startIndex : Nat) (i : Nat) (o : KeyboardGridOption),
      (buildKeyboardAux rows rowIndex startIndex).1.get? i = some o →
      o.indexInKeyboard = startIndex + i := by
  induction rows with
  | nil => intro r s i o h; exact absurd h (by simp [buildKeyboardAux])
  | cons row rest ih =>
    intro r s i o h
    rw [buildKeyboardAux] at h
    simp only at h
    by_cases hi : i < (buildRowOptions r s row.length row 0).length
    · rw [List.get?_append hi] at h
      have := buildRowOptions_get r s row.length row 0 i o h
      omega
    · rw [List.get?_append_right (by omega)] at h
      have := ih (r + 1) (s + row.length) _ o h
      have hlen := buildRowOptions_length r s row.length row 0
      omega

/-! ## The navigation controller (`moveSelection`, `App.tsx` lines 1393-1733)

All index arithmetic is over `Int`, as in JS; `Math.floor(a / b)` on
nonnegative `a` and positive `b` is Euclidean division, and `a % b` under the
same signs is the Euclidean remainder. -/

/-- Direction of a navigation gesture. -/
inductive Dir where
  | left
  | right
  | up
  | down
deriving DecidableEq

/-- The component state `moveSelection` closes over: the section sizes, the
submit flag (`Boolean(trimmedResponse)`), keyboard visibility, the dynamic
keyboard rows fed to `keyboardData`, and the viewport-dependent sentence
column count. -/
structure GridState where
  sentenceCount : Nat
  wordCount : Nat
  hasSubmit : Bool
  isKeyboardOpen : Bool
  kbRows : List (List KeyDef)
  sentenceViewportColumns : Nat
deriving DecidableEq

/-- The `keyboardData` memo (lines 516-588): empty when the keyboard is
closed, otherwise the build over the dynamic rows. -/
def keyboardDataOf (g : GridState) : List KeyboardGridOption × List Nat × List Nat :=
  if g.isKeyboardOpen then buildKeyboard g.kbRows else ([], [], [])

/-- The `sentenceColumns` memo (lines 593-598). -/
def sentenceColumnsOf (g : GridState) : Int :=
  if g.sentenceCount = 0 then 1
  else max 1 (min (g.sentenceViewportColumns : Int) (g.sentenceCount : Int))

/-- The `columns` value of line 500:
`Math.min(3, Math.max(1, navigatorOptions.length))`. -/
def columnsOf (g : GridState) : Int := min 3 (max 1 (g.wordCount : Int))

/-- Line 1398: `hasSubmit ? sentenceCount + wordCount : -1`. -/
def submitIndexOf (g : GridState) : Int :=
  if g.hasSubmit then (g.sentenceCount : Int) + (g.wordCount : Int) else -1

/-- Line 1399: `isKeyboardOpen ? keyboardOptions.length : 0`. -/
def keyboardCountOf (g : GridState) : Int :=
  if g.isKeyboardOpen then ((keyboardDataOf g).1.length : Int) else 0

/-- Lines 1400-1401. -/
def keyboardStartOf (g : GridState) : Int :=
  if 0 < keyboardCountOf g then
    (if g.hasSubmit then submitIndexOf g + 1
      else (g.sentenceCount : Int) + (g.wordCount : Int))
  else -1

/-- Line 1402: `Math.max(1, sentenceColumns)`. -/
def sentenceColsOf (g : GridState) : Int := max 1 (sentenceColumnsOf g)

/-- Line 1403: `wordCount > 0 ? Math.min(columns, wordCount) : 0`. -/
def wordColsOf (g : GridState) : Int :=
  if 0 < (g.wordCount : Int) then min (columnsOf g) (g.wordCount : Int) else 0

/-- Line 1405. -/
def totalCountOf (g : GridState) : Int :=
  (g.sentenceCount : Int) + (g.wordCount : Int) + (if g.hasSubmit then 1 else 0) +
    keyboardCountOf g

/-- Line 1410: `Math.max(0, Math.min(index, totalCount - 1))`. -/
def clampToRange (g : GridState) (index : Int) : Int :=
  max 0 (min index (totalCountOf g - 1))

/-- The local `getWordIndex` helper (lines 1412-1421). -/
def getWordIndexOf (g : GridState) (row column : Int) : Option Int :=
  if wordColsOf g ≤ 0 then none
  else if row < 0 then none
  else
    if (g.wordCount : Int) ≤ row * wordColsOf g then none
    else
      if min (wordColsOf g) ((g.wordCount : Int) - row * wordColsOf g) ≤ 0 then none
      else some ((g.sentenceCount : Int) + row * wordColsOf g +
        max 0 (min column (min (wordColsOf g) ((g.wordCount : Int) - row * wordColsOf g) - 1)))

/-- The local `getKeyboardIndex` helper (lines 1423-1431). -/
def getKeyboardIndexOf (g : GridState) (row column : Int) : Option Int :=
  if keyboardCountOf g ≤ 0 ∨ keyboardStartOf g < 0 then none
  else if row < 0 then none
  else
    match (keyboardDataOf g).2.1.get? row.toNat with
    | none => none
    | some rowStart =>
      if ((keyboardDataOf g).2.2.getD row.toNat 0 : Int) ≤ 0 then none
      else some (keyboardStartOf g + (rowStart : Int) +
        max 0 (min column (((keyboardDataOf g).2.2.getD row.toNat 0 : Int) - 1)))

/-- Line 1433. -/
def inSentencesOf (g : GridState) (current : Int) : Bool :=
  decide (0 < (g.sentenceCount : Int) ∧ current < (g.sentenceCount : Int))

/-- Lines 1434-1435. -/
def inWordsOf (g : GridState) (current : Int) : Bool :=
  decide (0 < (g.wordCount : Int) ∧ (g.sentenceCount : Int) ≤ current ∧
    current < (g.sentenceCount : Int) + (g.wordCount : Int))

/-- Line 1436. -/
def inSubmitOf (g : GridState) (current : Int) : Bool :=
  g.hasSubmit && decide (current = submitIndexOf g)

/-- Line 1437. -/
def inKeyboardOf (g : GridState) (current : Int) : Bool :=
  decide (0 < keyboardCountOf g ∧ 0 ≤ keyboardStartOf g ∧ keyboardStartOf g ≤ current)

/-- The `direction === "Right"` block (lines 1439-1501). -/
def moveRight (g : GridState) (current : Int) : Int :=
  if inSentencesOf g current then
    if (g.sentenceCount : Int) ≤ current / sentenceColsOf g * sentenceColsOf g then current
    else
      if min (sentenceColsOf g)
          ((g.sentenceCount : Int) - current / sentenceColsOf g * sentenceColsOf g) ≤ 0 then
        current
      else
        if current - current / sentenceColsOf g * sentenceColsOf g + 1 <
            min (sentenceColsOf g)
              ((g.sentenceCount : Int) - current / sentenceColsOf g * sentenceColsOf g) ∧
            current + 1 < (g.sentenceCount : Int) then
          current + 1
        else current / sentenceColsOf g * sentenceColsOf g
  else if inWordsOf g current then
    if wordColsOf g ≤ 0 then current
    else
      if min (wordColsOf g)
          ((g.wordCount : Int) -
            (current - (g.sentenceCount : Int)) / wordColsOf g * wordColsOf g) ≤ 0 then
        current
      else
        if (current - (g.sentenceCount : Int)) % wordColsOf g + 1 <
            min (wordColsOf g)
              ((g.wordCount : Int) -
                (current - (g.sentenceCount : Int)) / wordColsOf g * wordColsOf g) then
          current + 1
        else
          (g.sentenceCount : Int) +
            (current - (g.sentenceCount : Int)) / wordColsOf g * wordColsOf g
  else if inSubmitOf g current then
    if 0 ≤ keyboardStartOf g then keyboardStartOf g else current
  else if inKeyboardOf g current then
    if 0 ≤ current - keyboardStartOf g ∧
        current - keyboardStartOf g < ((keyboardDataOf g).1.length : Int) then
      match (keyboardDataOf g).1.get? (current - keyboardStartOf g).toNat with
      | some option =>
        if 0 < ((keyboardDataOf g).2.2.getD option.row 0 : Int) then
          if (option.column : Int) + 1 < ((keyboardDataOf g).2.2.getD option.row 0 : Int) then
            keyboardStartOf g + ((keyboardDataOf g).2.1.getD option.row 0 : Int) +
              (option.column : Int) + 1
          else keyboardStartOf g + ((keyboardDataOf g).2.1.getD option.row 0 : Int)
        else current
      | none => current
    else current
  else clampToRange g current

/-- The `direction === "Left"` block (lines 1503-1568). -/
def moveLeft (g : GridState) (current : Int) : Int :=
  if inKeyboardOf g current then
    if 0 ≤ current - keyboardStartOf g ∧
        current - keyboardStartOf g < ((keyboardDataOf g).1.length : Int) then
      match (keyboardDataOf g).1.get? (current - keyboardStartOf g).toNat with
      | some option =>
        if ((keyboardDataOf g).2.2.getD option.row 0 : Int) ≤ 0 then current
        else if 0 < (option.column : Int) then
          keyboardStartOf g + ((keyboardDataOf g).2.1.getD option.row 0 : Int) +
            (option.column : Int) - 1
        else
          keyboardStartOf g + ((keyboardDataOf g).2.1.getD option.row 0 : Int) +
            ((keyboardDataOf g).2.2.getD option.row 0 : Int) - 1
      | none => current
    else current
  else if inSubmitOf g current then
    if 0 < (g.wordCount : Int) then (g.sentenceCount : Int) + (g.wordCount : Int) - 1
    else if 0 < (g.sentenceCount : Int) then (g.sentenceCount : Int) - 1
    else current
  else if inWordsOf g current then
    if wordColsOf g ≤ 0 then current
    else if 0 < (current - (g.sentenceCount : Int)) % wordColsOf g then current - 1
    else
      if min (wordColsOf g)
          ((g.wordCount : Int) -
            (current - (g.sentenceCount : Int)) / wordColsOf g * wordColsOf g) ≤ 0 then
        current
      else
        (g.sentenceCount : Int) +
          (current - (g.sentenceCount : Int)) / wordColsOf g * wordColsOf g +
          min (wordColsOf g)
            ((g.wordCount : Int) -
              (current - (g.sentenceCount : Int)) / wordColsOf g * wordColsOf g) - 1
  else if inSentencesOf g current then
    if (g.sentenceCount : Int) ≤ current / sentenceColsOf g * sentenceColsOf g then current
    else
      if min (sentenceColsOf g)
          ((g.sentenceCount : Int) - current / sentenceColsOf g * sentenceColsOf g) ≤ 0 then
        current
      else if 0 < current - current / sentenceColsOf g * sentenceColsOf g then current - 1
      else
        current / sentenceColsOf g * sentenceColsOf g +
          min (sentenceColsOf g)
            ((g.sentenceCount : Int) - current / sentenceColsOf g * sentenceColsOf g) - 1
  else clampToRange g current

/-- The `direction === "Down"` block (lines 1571-1634). -/
def moveDown (g : GridState) (current : Int) : Int :=
  if inSentencesOf g current then
    if current + sentenceColsOf g < (g.sentenceCount : Int) then current + sentenceColsOf g
    else
      match getWordIndexOf g 0 (current % sentenceColsOf g) with
      | some wordIndex => wordIndex
      | none =>
        if g.hasSubmit then submitIndexOf g
        else
          match getKeyboardIndexOf g 0 (current % sentenceColsOf g) with
          | some keyboardIndex => keyboardIndex
          | none => current
  else if inWordsOf g current then
    if 0 < wordColsOf g ∧
        current + wordColsOf g - (g.sentenceCount : Int) < (g.wordCount : Int) then
      current + wordColsOf g
    else if g.hasSubmit then submitIndexOf g
    else
      match getKeyboardIndexOf g 0
          (if 0 < wordColsOf g then (current - (g.sentenceCount : Int)) % wordColsOf g
            else 0) with
      | some keyboardIndex => keyboardIndex
      | none => current
  else if inSubmitOf g current then
    match getKeyboardIndexOf g 0 0 with
    | some keyboardIndex => keyboardIndex
    | none => current
  else if inKeyboardOf g current then
    if 0 ≤ current - keyboardStartOf g ∧
        current - keyboardStartOf g < ((keyboardDataOf g).1.length : Int) then
      match (keyboardDataOf g).1.get? (current - keyboardStartOf g).toNat with
      | some option =>
        match getKeyboardIndexOf g ((option.row : Int) + 1) (option.column : Int) with
        | some nextIndex => nextIndex
        | none => current
      | none => current
    else current
  else clampToRange g current

/-- The `direction === "Up"` block (lines 1637-1717). -/
def moveUp (g : GridState) (current : Int) : Int :=
  if inKeyboardOf g current then
    if 0 ≤ current - keyboardStartOf g ∧
        current - keyboardStartOf g < ((keyboardDataOf g).1.length : Int) then
      match (keyboardDataOf g).1.get? (current - keyboardStartOf g).toNat with
      | some option =>
        if option.row = 0 then
          if g.hasSubmit then submitIndexOf g
          else
            match (if 0 < (g.wordCount : Int) then
                getWordIndexOf g
                  (max 0 ((if 0 < wordColsOf g then
                    ((g.wordCount : Int) + wordColsOf g - 1) / wordColsOf g else 0) - 1))
                  (option.column : Int)
              else none) with
            | some target => target
            | none =>
              if 0 < (g.sentenceCount : Int) then
                if max 0 (((g.sentenceCount : Int) + sentenceColsOf g - 1) / sentenceColsOf g - 1) *
                      sentenceColsOf g +
                      min (option.column : Int) (sentenceColsOf g - 1) <
                    (g.sentenceCount : Int) then
                  max 0 (((g.sentenceCount : Int) + sentenceColsOf g - 1) / sentenceColsOf g - 1) *
                    sentenceColsOf g + min (option.column : Int) (sentenceColsOf g - 1)
                else (g.sentenceCount : Int) - 1
              else current
        else
          match getKeyboardIndexOf g ((option.row : Int) - 1) (option.column : Int) with
          | some previousIndex => previousIndex
          | none => current
      | none => current
    else current
  else if inSubmitOf g current then
    if 0 < (g.wordCount : Int) then (g.sentenceCount : Int) + (g.wordCount : Int) - 1
    else if 0 < (g.sentenceCount : Int) then (g.sentenceCount : Int) - 1
    else current
  else if inWordsOf g current then
    if 0 < wordColsOf g ∧ (g.sentenceCount : Int) ≤ current - wordColsOf g then
      current - wordColsOf g
    else if 0 < (g.sentenceCount : Int) then
      if max 0 (((g.sentenceCount : Int) + sentenceColsOf g - 1) / sentenceColsOf g - 1) *
            sentenceColsOf g +
            min (if 0 < wordColsOf g then (current - (g.sentenceCount : Int)) % wordColsOf g
              else 0) (sentenceColsOf g - 1) <
          (g.sentenceCount : Int) then
        max 0 (((g.sentenceCount : Int) + sentenceColsOf g - 1) / sentenceColsOf g - 1) *
          sentenceColsOf g +
          min (if 0 < wordColsOf g then (current - (g.sentenceCount : Int)) % wordColsOf g
            else 0) (sentenceColsOf g - 1)
      else (g.sentenceCount : Int) - 1
    else current
  else if inSentencesOf g current then
    if 0 ≤ current - sentenceColsOf g then current - sentenceColsOf g
    else current
  else clampToRange g current

/-- The full `moveSelection` (lines 1393-1733): `0` on an empty model
(lines 1406-1408), otherwise dispatch on the direction. -/
def moveSelection (g : GridState) (current : Int) (direction : Dir) : Int :=
  if totalCountOf g = 0 then 0
  else
    match direction with
    | .right => moveRight g current
    | .left => moveLeft g current
    | .down => moveDown g current
    | .up => moveUp g current

/-! ### Range facts about `moveSelection` -/

theorem sentenceColsOf_pos (g : GridState) : 1 ≤ sentenceColsOf g :=
  le_max_left 1 _

theorem wordColsOf_pos (g : GridState) (h : 0 < (g.wordCount : Int)) :
    1 ≤ wordColsOf g := by
  unfold wordColsOf columnsOf
  rw [if_pos h]
  omega

theorem wordColsOf_le (g : GridState) : wordColsOf g ≤ (g.wordCount : Int) := by
  unfold wordColsOf columnsOf
  split <;> omega

theorem keyboardCountOf_eq (g : GridState) :
    keyboardCountOf g = ((keyboardDataOf g).1.length : Int) := by
  unfold keyboardCountOf keyboardDataOf
  split <;> simp

theorem keyboardCountOf_nonneg (g : GridState) : 0 ≤ keyboardCountOf g := by
  rw [keyboardCountOf_eq]
  exact Int.ofNat_nonneg _

theorem keyboardStartOf_eq (g : GridState) (h : 0 < keyboardCountOf g) :
    keyboardStartOf g =
      (g.sentenceCount : Int) + (g.wordCount : Int) + (if g.hasSubmit then 1 else 0) := by
  unfold keyboardStartOf submitIndexOf
  rw [if_pos h]
  cases g.hasSubmit <;> simp

theorem keyboardStartOf_count (g : GridState) (h : 0 ≤ keyboardStartOf g) :
    0 < keyboardCountOf g := by
  by_contra hc
  unfold keyboardStartOf at h
  rw [if_neg hc] at h
  omega

theorem keyboardStartOf_total (g : GridState) (h : 0 < keyboardCountOf g) :
    keyboardStartOf g + keyboardCountOf g = totalCountOf g := by
  rw [keyboardStartOf_eq g h]
  unfold totalCountOf
  ring

theorem totalCountOf_parts (g : GridState) :
    totalCountOf g = (g.sentenceCount : Int) + (g.wordCount : Int) +
      (if g.hasSubmit then 1 else 0) + keyboardCountOf g := rfl

theorem clampToRange_bounds (g : GridState) (h : 0 < totalCountOf g) (i : Int) :
    0 ≤ clampToRange g i ∧ clampToRange g i < totalCountOf g := by
  unfold clampToRange
  omega

theorem getWordIndexOf_bounds (g : GridState) (row col i : Int)
    (h : getWordIndexOf g row col = some i) :
    (g.sentenceCount : Int) ≤ i ∧ i < (g.sentenceCount : Int) + (g.wordCount : Int) := by
  unfold getWordIndexOf at h
  split at h
  · exact absurd h (by simp)
  · split at h
    · exact absurd h (by simp)
    · split at h
      · exact absurd h (by simp)
      · split at h
        · exact absurd h (by simp)
        · rename_i hcols hrow hstart hlen
          injection h with h
          have hmul : 0 ≤ row * wordColsOf g :=
            mul_nonneg (by omega) (by omega)
          omega

theorem getKeyboardIndexOf_bounds (g : GridState) (row col i : Int)
    (h : getKeyboardIndexOf g row col = some i) :
    0 < keyboardCountOf g ∧ 0 ≤ keyboardStartOf g ∧
      keyboardStartOf g ≤ i ∧ i < keyboardStartOf g + keyboardCountOf g := by
  unfold getKeyboardIndexOf at h
  split at h
  · exact absurd h (by simp)
  · split at h
    · exact absurd h (by simp)
    · rename_i hguard hrow
      obtain ⟨hg1, hg2⟩ := not_or.mp hguard
      have hcount : 0 < keyboardCountOf g := by omega
      have hstart : 0 ≤ keyboardStartOf g := by omega
      refine ⟨hcount, hstart, ?_⟩
      have hopen : g.isKeyboardOpen = true := by
        by_contra hcl
        rw [keyboardCountOf_eq] at hcount
        unfold keyboardDataOf at hcount
        rw [if_neg hcl] at hcount
        simp at hcount
      have hdata : keyboardDataOf g = buildKeyboard g.kbRows := by
        unfold keyboardDataOf
        rw [if_pos hopen]
      split at h
      · exact absurd h (by simp)
      · rename_i rowStart hget
        split at h
        · exact absurd h (by simp)
        · rename_i hlen
          injection h with h
          have hst := buildKeyboardAux_starts g.kbRows 0 0 row.toNat rowStart
            (by rw [hdata] at hget; exact hget)
          have htot : keyboardCountOf g = (rowsTotal g.kbRows : Int) := by
            rw [keyboardCountOf_eq, hdata]
            unfold buildKeyboard
            rw [buildKeyboardAux_length]
          have hgd : (keyboardDataOf g).2.2.getD row.toNat 0 =
              (buildKeyboardAux g.kbRows 0 0).2.2.getD row.toNat 0 := by
            rw [hdata]; rfl
          rw [hgd] at h hlen
          omega

/-- Decoded facts about the keyboard option found at `current - keyboardStart`
inside `moveSelection`: its stored geometry agrees with the `rowStarts` /
`rowLengths` lookups and stays inside the option count. -/
theorem keyboardOption_facts (g : GridState) (ki : Int) (o : KeyboardGridOption)
    (hget : (keyboardDataOf g).1.get? ki.toNat = some o)
    (hki : 0 ≤ ki) (hlt : ki < ((keyboardDataOf g).1.length : Int)) :
    ((keyboardDataOf g).2.1.getD o.row 0 : Int) = (o.rowStartIndex : Int) ∧
      ((keyboardDataOf g).2.2.getD o.row 0 : Int) = (o.rowLength : Int) ∧
      (o.column : Int) < (o.rowLength : Int) ∧
      ((o.rowStartIndex : Int) + (o.rowLength : Int) ≤ keyboardCountOf g) ∧
      (o.rowStartIndex : Int) + (o.column : Int) = ki := by
  have hopen : g.isKeyboardOpen = true := by
    by_contra hcl
    unfold keyboardDataOf at hget
    rw [if_neg hcl] at hget
    simp at hget
  have hdata : keyboardDataOf g = buildKeyboard g.kbRows := by
    unfold keyboardDataOf
    rw [if_pos hopen]
  rw [hdata] at hget
  have hmem : o ∈ (buildKeyboardAux g.kbRows 0 0).1 := List.get?_mem hget
  obtain ⟨_, hb, hc, hd, _, hf, hg⟩ := buildKeyboardAux_mem g.kbRows 0 0 o hmem
  simp only [Nat.sub_zero] at hb hc
  have hidx := buildKeyboardAux_get g.kbRows 0 0 ki.toNat o hget
  have htot : keyboardCountOf g = (rowsTotal g.kbRows : Int) := by
    rw [keyboardCountOf_eq, hdata]
    unfold buildKeyboard
    rw [buildKeyboardAux_length]
  refine ⟨?_, ?_, by omega, by omega, ?_⟩
  · rw [hdata]
    show ((buildKeyboardAux g.kbRows 0 0).2.1.getD o.row 0 : Int) = _
    rw [List.getD_eq_getElem?_getD, ← List.get?_eq_getElem?, hb]
    rfl
  · rw [hdata]
    show ((buildKeyboardAux g.kbRows 0 0).2.2.getD o.row 0 : Int) = _
    rw [List.getD_eq_getElem?_getD, ← List.get?_eq_getElem?, hc]
    rfl
  · omega

theorem moveRight_bounds (g : GridState) (current : Int)
    (h0 : 0 ≤ current) (h1 : current < totalCountOf g) :
    0 ≤ moveRight g current ∧ moveRight g current < totalCountOf g := by
  have hkc := keyboardCountOf_nonneg g
  have htot : 0 < totalCountOf g := by omega
  have hsw_le : (g.sentenceCount : Int) + (g.wordCount : Int) ≤ totalCountOf g := by
    rw [totalCountOf_parts]
    split <;> omega
  unfold moveRight
  split
  · rename_i hsen
    rw [inSentencesOf, decide_eq_true_eq] at hsen
    have hcols := sentenceColsOf_pos g
    have hdm := Int.ediv_add_emod current (sentenceColsOf g)
    have hcomm : current / sentenceColsOf g * sentenceColsOf g =
        sentenceColsOf g * (current / sentenceColsOf g) := mul_comm _ _
    have hm0 : 0 ≤ current % sentenceColsOf g := Int.emod_nonneg current (by omega)
    have hm1 : current % sentenceColsOf g < sentenceColsOf g :=
      Int.emod_lt_of_pos current (by omega)
    have he0 : 0 ≤ current / sentenceColsOf g * sentenceColsOf g :=
      mul_nonneg (Int.ediv_nonneg h0 (by omega)) (by omega)
    rcases le_total (sentenceColsOf g)
        ((g.sentenceCount : Int) - current / sentenceColsOf g * sentenceColsOf g) with
      hmin | hmin
    · rw [min_eq_left hmin]
      split
      · omega
      · split
        · omega
        · split
          · omega
          · omega
    · rw [min_eq_right hmin]
      split
      · omega
      · split
        · omega
        · split
          · omega
          · omega
  · split
    · rename_i hw
      rw [inWordsOf, decide_eq_true_eq] at hw
      have hcols := wordColsOf_pos g hw.1
      have hdm := Int.ediv_add_emod (current - (g.sentenceCount : Int)) (wordColsOf g)
      have hcomm : (current - (g.sentenceCount : Int)) / wordColsOf g * wordColsOf g =
          wordColsOf g * ((current - (g.sentenceCount : Int)) / wordColsOf g) := mul_comm _ _
      have hm0 : 0 ≤ (current - (g.sentenceCount : Int)) % wordColsOf g :=
        Int.emod_nonneg _ (by omega)
      have hm1 : (current - (g.sentenceCount : Int)) % wordColsOf g < wordColsOf g :=
        Int.emod_lt_of_pos _ (by omega)
      have he0 : 0 ≤ (current - (g.sentenceCount : Int)) / wordColsOf g * wordColsOf g :=
        mul_nonneg (Int.ediv_nonneg (by omega) (by omega)) (by omega)
      rcases le_total (wordColsOf g)
          ((g.wordCount : Int) -
            (current - (g.sentenceCount : Int)) / wordColsOf g * wordColsOf g) with
        hmin | hmin
      · rw [min_eq_left hmin]
        split
        · omega
        · split
          · omega
          · omega
      · rw [min_eq_right hmin]
        split
        · omega
        · split
          · omega
          · omega
    · split
      · split
        · rename_i hks
          have hc := keyboardStartOf_count g hks
          have := keyboardStartOf_total g hc
          omega
        · omega
      · split
        · rename_i hkb
          rw [inKeyboardOf, decide_eq_true_eq] at hkb
          have hc := hkb.1
          have htotk := keyboardStartOf_total g hc
          have hkceq := keyboardCountOf_eq g
          split
          · rename_i hrange
            match hget : (keyboardDataOf g).1.get? (current - keyboardStartOf g).toNat with
            | none => exact ⟨h0, h1⟩
            | some o =>
              simp only []
              obtain ⟨hs, hl, hcol, hbound, hidx⟩ :=
                keyboardOption_facts g (current - keyboardStartOf g) o hget
                  hrange.1 hrange.2
              rw [hs, hl]
              split
              · split
                · omega
                · omega
              · omega
          · omega
        · exact clampToRange_bounds g htot current

theorem moveLeft_bounds (g : GridState) (current : Int)
    (h0 : 0 ≤ current) (h1 : current < totalCountOf g) :
    0 ≤ moveLeft g current ∧ moveLeft g current < totalCountOf g := by
  have hkc := keyboardCountOf_nonneg g
  have htot : 0 < totalCountOf g := by omega
  have hsw_le : (g.sentenceCount : Int) + (g.wordCount : Int) ≤ totalCountOf g := by
    rw [totalCountOf_parts]
    split <;> omega
  unfold moveLeft
  split
  · rename_i hkb
    rw [inKeyboardOf, decide_eq_true_eq] at hkb
    have hc := hkb.1
    have htotk := keyboardStartOf_total g hc
    have hkceq := keyboardCountOf_eq g
    split
    · rename_i hrange
      match hget : (keyboardDataOf g).1.get? (current - keyboardStartOf g).toNat with
      | none => exact ⟨h0, h1⟩
      | some o =>
        simp only []
        obtain ⟨hs, hl, hcol, hbound, hidx⟩ :=
          keyboardOption_facts g (current - keyboardStartOf g) o hget hrange.1 hrange.2
        rw [hs, hl]
        split
        · omega
        · split
          · omega
          · omega
    · omega
  · split
    · split
      · omega
      · split
        · omega
        · omega
    · split
      · rename_i hw
        rw [inWordsOf, decide_eq_true_eq] at hw
        have hcols := wordColsOf_pos g hw.1
        have hdm := Int.ediv_add_emod (current - (g.sentenceCount : Int)) (wordColsOf g)
        have hcomm : (current - (g.sentenceCount : Int)) / wordColsOf g * wordColsOf g =
            wordColsOf g * ((current - (g.sentenceCount : Int)) / wordColsOf g) :=
          mul_comm _ _
        have hm0 : 0 ≤ (current - (g.sentenceCount : Int)) % wordColsOf g :=
          Int.emod_nonneg _ (by omega)
        have hm1 : (current - (g.sentenceCount : Int)) % wordColsOf g < wordColsOf g :=
          Int.emod_lt_of_pos _ (by omega)
        have he0 : 0 ≤ (current - (g.sentenceCount : Int)) / wordColsOf g * wordColsOf g :=
          mul_nonneg (Int.ediv_nonneg (by omega) (by omega)) (by omega)
        rcases le_total (wordColsOf g)
            ((g.wordCount : Int) -
              (current - (g.sentenceCount : Int)) / wordColsOf g * wordColsOf g) with
          hmin | hmin
        · rw [min_eq_left hmin]
          repeat' split
          all_goals omega
        · rw [min_eq_right hmin]
          repeat' split
          all_goals omega
      · split
        · rename_i hsen
          rw [inSentencesOf, decide_eq_true_eq] at hsen
          have hcols := sentenceColsOf_pos g
          have hdm := Int.ediv_add_emod current (sentenceColsOf g)
          have hcomm : current / sentenceColsOf g * sentenceColsOf g =
              sentenceColsOf g * (current / sentenceColsOf g) := mul_comm _ _
          have hm0 : 0 ≤ current % sentenceColsOf g := Int.emod_nonneg current (by omega)
          have hm1 : current % sentenceColsOf g < sentenceColsOf g :=
            Int.emod_lt_of_pos current (by omega)
          have he0 : 0 ≤ current / sentenceColsOf g * sentenceColsOf g :=
            mul_nonneg (Int.ediv_nonneg h0 (by omega)) (by omega)
          rcases le_total (sentenceColsOf g)
              ((g.sentenceCount : Int) - current / sentenceColsOf g * sentenceColsOf g) with
            hmin | hmin
          · rw [min_eq_left hmin]
            repeat' split
            all_goals omega
          · rw [min_eq_right hmin]
            repeat' split
            all_goals omega
        · exact clampToRange_bounds g htot current

theorem moveDown_bounds (g : GridState) (current : Int)
    (h0 : 0 ≤ current) (h1 : current < totalCountOf g) :
    0 ≤ moveDown g current ∧ moveDown g current < totalCountOf g := by
  have hkc := keyboardCountOf_nonneg g
  have htot : 0 < totalCountOf g := by omega
  have hsw_le : (g.sentenceCount : Int) + (g.wordCount : Int) ≤ totalCountOf g := by
    rw [totalCountOf_parts]
    split <;> omega
  have hsub : g.hasSubmit = true →
      0 ≤ submitIndexOf g ∧ submitIndexOf g < totalCountOf g := by
    intro hhs
    rw [totalCountOf_parts, submitIndexOf, if_pos hhs, if_pos hhs]
    omega
  unfold moveDown
  split
  · rename_i hsen
    rw [inSentencesOf, decide_eq_true_eq] at hsen
    have hcols := sentenceColsOf_pos g
    split
    · omega
    · match hw : getWordIndexOf g 0 (current % sentenceColsOf g) with
      | some wordIndex =>
        have := getWordIndexOf_bounds g 0 _ wordIndex hw
        simp only []
        omega
      | none =>
        simp only []
        split
        · rename_i hhs
          exact hsub hhs
        · match hk : getKeyboardIndexOf g 0 (current % sentenceColsOf g) with
          | some keyboardIndex =>
            have hb := getKeyboardIndexOf_bounds g 0 _ keyboardIndex hk
            have := keyboardStartOf_total g hb.1
            simp only []
            omega
          | none => exact ⟨h0, h1⟩
  · split
    · rename_i hw
      rw [inWordsOf, decide_eq_true_eq] at hw
      split
      · rename_i hnext
        have hcols := wordColsOf_pos g hw.1
        omega
      · split
        · rename_i hhs
          exact hsub hhs
        · match hk : getKeyboardIndexOf g 0 _ with
          | some keyboardIndex =>
            have hb := getKeyboardIndexOf_bounds g 0 _ keyboardIndex hk
            have := keyboardStartOf_total g hb.1
            simp only []
            omega
          | none => exact ⟨h0, h1⟩
    · split
      · match hk : getKeyboardIndexOf g 0 0 with
        | some keyboardIndex =>
          have hb := getKeyboardIndexOf_bounds g 0 0 keyboardIndex hk
          have := keyboardStartOf_total g hb.1
          simp only []
          omega
        | none => exact ⟨h0, h1⟩
      · split
        · rename_i hkb
          rw [inKeyboardOf, decide_eq_true_eq] at hkb
          split
          · rename_i hrange
            match hget : (keyboardDataOf g).1.get? (current - keyboardStartOf g).toNat with
            | none => exact ⟨h0, h1⟩
            | some o =>
              simp only []
              match hk : getKeyboardIndexOf g ((o.row : Int) + 1) (o.column : Int) with
              | some nextIndex =>
                have hb := getKeyboardIndexOf_bounds g _ _ nextIndex hk
                have := keyboardStartOf_total g hb.1
                simp only []
                omega
              | none => exact ⟨h0, h1⟩
          · omega
        · exact clampToRange_bounds g htot current

theorem moveUp_bounds (g : GridState) (current : Int)
    (h0 : 0 ≤ current) (h1 : current < totalCountOf g) :
    0 ≤ moveUp g current ∧ moveUp g current < totalCountOf g := by
  have hkc := keyboardCountOf_nonneg g
  have htot : 0 < totalCountOf g := by omega
  have hsw_le : (g.sentenceCount : Int) + (g.wordCount : Int) ≤ totalCountOf g := by
    rw [totalCountOf_parts]
    split <;> omega
  have hsub : g.hasSubmit = true →
      0 ≤ submitIndexOf g ∧ submitIndexOf g < totalCountOf g := by
    intro hhs
    rw [totalCountOf_parts, submitIndexOf, if_pos hhs, if_pos hhs]
    omega
  have hcols := sentenceColsOf_pos g
  have hrow0 : 0 ≤ max 0 (((g.sentenceCount : Int) + sentenceColsOf g - 1) /
      sentenceColsOf g - 1) * sentenceColsOf g :=
    mul_nonneg (le_max_left 0 _) (by omega)
  unfold moveUp
  split
  · rename_i hkb
    rw [inKeyboardOf, decide_eq_true_eq] at hkb
    have hc := hkb.1
    have htotk := keyboardStartOf_total g hc
    have hkceq := keyboardCountOf_eq g
    split
    · rename_i hrange
      match hget : (keyboardDataOf g).1.get? (current - keyboardStartOf g).toNat with
      | none => exact ⟨h0, h1⟩
      | some o =>
        simp only []
        split
        · split
          · rename_i hhs
            exact hsub hhs
          · match hwv : (if 0 < (g.wordCount : Int) then
                getWordIndexOf g
                  (max 0 ((if 0 < wordColsOf g then
                    ((g.wordCount : Int) + wordColsOf g - 1) / wordColsOf g else 0) - 1))
                  (o.column : Int)
              else none) with
            | some target =>
              have htw : getWordIndexOf g
                  (max 0 ((if 0 < wordColsOf g then
                    ((g.wordCount : Int) + wordColsOf g - 1) / wordColsOf g else 0) - 1))
                  (o.column : Int) = some target := by
                split at hwv
                · exact hwv
                · exact absurd hwv (by simp)
              have := getWordIndexOf_bounds g _ _ target htw
              simp only []
              omega
            | none =>
              simp only []
              split
              · rename_i hsc
                have hmin0 : 0 ≤ min (o.column : Int) (sentenceColsOf g - 1) :=
                  le_min (Int.ofNat_nonneg _) (by omega)
                split
                · omega
                · omega
              · exact ⟨h0, h1⟩
        · match hk : getKeyboardIndexOf g ((o.row : Int) - 1) (o.column : Int) with
          | some previousIndex =>
            have hb := getKeyboardIndexOf_bounds g _ _ previousIndex hk
            simp only []
            omega
          | none => exact ⟨h0, h1⟩
    · omega
  · split
    · split
      · omega
      · split
        · omega
        · omega
    · split
      · rename_i hw
        rw [inWordsOf, decide_eq_true_eq] at hw
        split
        · omega
        · split
          · rename_i hsc
            have hmin0 : 0 ≤ min (if 0 < wordColsOf g then
                (current - (g.sentenceCount : Int)) % wordColsOf g else 0)
                (sentenceColsOf g - 1) := by
              refine le_min ?_ (by omega)
              split
              · rename_i hwc
                exact Int.emod_nonneg _ (by omega)
              · omega
            split
            · omega
            · omega
          · exact ⟨h0, h1⟩
      · split
        · rename_i hsen
          rw [inSentencesOf, decide_eq_true_eq] at hsen
          split
          · omega
          · omega
        · exact clampToRange_bounds g htot current

/-- C1: for every grid model and direction, `moveSelection` maps any
selection index inside `[0, model.length - 1]` back into that range, and on
a model with zero options it returns `0` for any starting index. -/
theorem c1_move_in_range (g : GridState) (current : Int) (direction : Dir) :
    (totalCountOf g = 0 → moveSelection g current direction = 0) ∧
      (0 ≤ current → current < totalCountOf g →
        0 ≤ moveSelection g current direction ∧
          moveSelection g current direction < totalCountOf g) := by
  constructor
  · intro h
    unfold moveSelection
    rw [if_pos h]
  · intro h0 h1
    unfold moveSelection
    rw [if_neg (by omega)]
    match direction with
    | .right => exact moveRight_bounds g current h0 h1
    | .left => exact moveLeft_bounds g current h0 h1
    | .down => exact moveDown_bounds g current h0 h1
    | .up => exact moveUp_bounds g current h0 h1

/-- Demonstration keyboard rows for concrete navigation checks. -/
def demoRows : List (List KeyDef) :=
  [[⟨"A", none, none⟩, ⟨"B", none, none⟩], [⟨"Space", some " ", some .space⟩]]

/-- A populated grid: 1 sentence, 2 words, submit, and an open 2-row
keyboard. -/
def demoGrid : GridState :=
  { sentenceCount := 1, wordCount := 2, hasSubmit := true, isKeyboardOpen := true,
    kbRows := demoRows, sentenceViewportColumns := 3 }

/-- A grid with zero options. -/
def emptyGrid : GridState :=
  { sentenceCount := 0, wordCount := 0, hasSubmit := false, isKeyboardOpen := false,
    kbRows := [], sentenceViewportColumns := 1 }

/-- Witness for C1: the empty model maps index 5 to 0, and on the populated
demo grid a Down move from the submit cell stays inside `[0, 6]`. -/
theorem c1_witness :
    (totalCountOf emptyGrid = 0 ∧ moveSelection emptyGrid 5 .left = 0) ∧
      (0 ≤ (4 : Int) ∧ (4 : Int) < totalCountOf demoGrid ∧
        (0 ≤ moveSelection demoGrid 4 .down ∧
          moveSelection demoGrid 4 .down < totalCountOf demoGrid)) :=
  ⟨⟨by decide, (c1_move_in_range emptyGrid 5 .left).1 (by decide)⟩,
    by decide, by decide,
    (c1_move_in_range demoGrid 4 .down).2 (by decide) (by decide)⟩

/-- The grid of claim C6: 3 sentences at viewport width ≥ 640 (3 sentence
columns, one row) and 2 word options (one word row of 2 columns). -/
def c6Grid : GridState :=
  { sentenceCount := 3, wordCount := 2, hasSubmit := false, isKeyboardOpen := false,
    kbRows := [], sentenceViewportColumns := 3 }

/-- C6: moving Down from the sentence cell in column 2 (grid index 2) of the
last sentence row lands on word column 1 (grid index 4 = 3 + 1), not word
column 0 (grid index 3). -/
theorem c6_down_lands_on_nearest_column :
    moveSelection c6Grid 2 .down = 4 ∧ moveSelection c6Grid 2 .down ≠ 3 := by
  decide

/-- The grid of the C3 counterexample: 6 word options in rows of 3. -/
def c3Grid : GridState :=
  { sentenceCount := 0, wordCount := 6, hasSubmit := false, isKeyboardOpen := false,
    kbRows := [], sentenceViewportColumns := 1 }

/-- C3 counterexample: the claim says Right on the last column of a row and
Left on the first column leave the index unchanged, but `moveSelection`
wraps within the row: with 6 words in rows of 3, Right from index 2 (last
column of row 0) yields 0, and Left from index 0 (first column) yields 2. -/
theorem c3_counterexample :
    moveSelection c3Grid 2 .right = 0 ∧ moveSelection c3Grid 2 .right ≠ 2 ∧
      moveSelection c3Grid 0 .left = 2 ∧ moveSelection c3Grid 0 .left ≠ 0 := by
  decide

theorem rowDecomp_ediv (row col c : Int) (hc : 0 < c) (h0 : 0 ≤ col) (h1 : col < c) :
    (row * c + col) / c = row := by
  rw [add_comm, Int.add_mul_ediv_right _ _ (by omega : c ≠ 0),
    Int.ediv_eq_zero_of_lt h0 h1]
  omega

theorem rowDecomp_emod (row col c : Int) (hc : 0 < c) (h0 : 0 ≤ col) (h1 : col < c) :
    (row * c + col) % c = col := by
  rw [add_comm, Int.add_mul_emod_self, Int.emod_eq_of_lt h0 h1]


theorem moveSelection_right (g : GridState) (current : Int) (h : totalCountOf g ≠ 0) :
    moveSelection g current .right = moveRight g current := by
  unfold moveSelection
  rw [if_neg h]

theorem moveSelection_left (g : GridState) (current : Int) (h : totalCountOf g ≠ 0) :
    moveSelection g current .left = moveLeft g current := by
  unfold moveSelection
  rw [if_neg h]

theorem totalCountOf_pos_of_sentences (g : GridState) (h : 0 < (g.sentenceCount : Int)) :
    totalCountOf g ≠ 0 := by
  have hkc := keyboardCountOf_nonneg g
  have : 0 < totalCountOf g := by
    rw [totalCountOf_parts]
    split <;> omega
  omega

theorem wrapRight_sentences (g : GridState) (row col : Int) (hr : 0 ≤ row)
    (hrs : row * sentenceColsOf g < (g.sentenceCount : Int))
    (hcol : col = min (sentenceColsOf g)
      ((g.sentenceCount : Int) - row * sentenceColsOf g) - 1) :
    moveSelection g (row * sentenceColsOf g + col) .right = row * sentenceColsOf g := by
  have hc := sentenceColsOf_pos g
  have hrs0 : 0 ≤ row * sentenceColsOf g := mul_nonneg hr (by omega)
  have hminl := min_le_left (sentenceColsOf g)
    ((g.sentenceCount : Int) - row * sentenceColsOf g)
  have hminr := min_le_right (sentenceColsOf g)
    ((g.sentenceCount : Int) - row * sentenceColsOf g)
  have hmin1 : 1 ≤ min (sentenceColsOf g)
      ((g.sentenceCount : Int) - row * sentenceColsOf g) := le_min (by omega) (by omega)
  have hcol0 : 0 ≤ col := by omega
  have hcolc : col < sentenceColsOf g := by omega
  have hdiv := rowDecomp_ediv row col (sentenceColsOf g) (by omega) hcol0 hcolc
  have hin : inSentencesOf g (row * sentenceColsOf g + col) = true := by
    rw [inSentencesOf, decide_eq_true_eq]
    omega
  rw [moveSelection_right g _ (totalCountOf_pos_of_sentences g (by omega))]
  unfold moveRight
  rw [if_pos hin, hdiv]
  rw [if_neg (by omega : ¬ ((g.sentenceCount : Int) ≤ row * sentenceColsOf g))]
  rw [if_neg (by omega : ¬ (min (sentenceColsOf g)
    ((g.sentenceCount : Int) - row * sentenceColsOf g) ≤ 0))]
  rw [if_neg (by omega : ¬ (row * sentenceColsOf g + col - row * sentenceColsOf g + 1 <
    min (sentenceColsOf g) ((g.sentenceCount : Int) - row * sentenceColsOf g) ∧
    row * sentenceColsOf g + col + 1 < (g.sentenceCount : Int)))]


theorem notInKeyboard_low (g : GridState) (current : Int)
    (h : current < (g.sentenceCount : Int) + (g.wordCount : Int)) :
    ¬ (inKeyboardOf g current = true) := by
  rw [inKeyboardOf, decide_eq_true_eq]
  rintro ⟨hcnt, hst, hle⟩
  rw [keyboardStartOf_eq g hcnt] at hle
  cases hhs : g.hasSubmit <;> rw [hhs] at hle <;> simp at hle <;> omega

theorem notInSubmit_low (g : GridState) (current : Int)
    (h : current < (g.sentenceCount : Int) + (g.wordCount : Int)) :
    ¬ (inSubmitOf g current = true) := by
  rw [inSubmitOf]
  cases hhs : g.hasSubmit
  · simp
  · simp only [Bool.true_and, decide_eq_true_eq]
    rw [submitIndexOf, if_pos hhs]
    omega

theorem wrapLeft_sentences (g : GridState) (row : Int) (hr : 0 ≤ row)
    (hrs : row * sentenceColsOf g < (g.sentenceCount : Int)) :
    moveSelection g (row * sentenceColsOf g) .left =
      row * sentenceColsOf g +
        min (sentenceColsOf g) ((g.sentenceCount : Int) - row * sentenceColsOf g) - 1 := by
  have hc := sentenceColsOf_pos g
  have hrs0 : 0 ≤ row * sentenceColsOf g := mul_nonneg hr (by omega)
  have hdiv : row * sentenceColsOf g / sentenceColsOf g = row :=
    Int.mul_ediv_cancel row (by omega)
  have hin : inSentencesOf g (row * sentenceColsOf g) = true := by
    rw [inSentencesOf, decide_eq_true_eq]
    omega
  have hnw : ¬ (inWordsOf g (row * sentenceColsOf g) = true) := by
    rw [inWordsOf, decide_eq_true_eq]
    omega
  rw [moveSelection_left g _ (totalCountOf_pos_of_sentences g (by omega))]
  unfold moveLeft
  rw [if_neg (notInKeyboard_low g _ (by omega)), if_neg (notInSubmit_low g _ (by omega)),
    if_neg hnw, if_pos hin, hdiv]
  rw [if_neg (by omega : ¬ ((g.sentenceCount : Int) ≤ row * sentenceColsOf g))]
  rw [if_neg (by omega : ¬ (min (sentenceColsOf g)
    ((g.sentenceCount : Int) - row * sentenceColsOf g) ≤ 0))]
  rw [if_neg (by omega : ¬ (0 < row * sentenceColsOf g - row * sentenceColsOf g))]


theorem wrapRight_words (g : GridState) (row col : Int) (hr : 0 ≤ row)
    (hrs : row * wordColsOf g < (g.wordCount : Int))
    (hcol : col = min (wordColsOf g) ((g.wordCount : Int) - row * wordColsOf g) - 1) :
    moveSelection g ((g.sentenceCount : Int) + (row * wordColsOf g + col)) .right =
      (g.sentenceCount : Int) + row * wordColsOf g := by
  have hwc : 0 < (g.wordCount : Int) := by
    by_contra hneg
    have hz : wordColsOf g = 0 := by
      unfold wordColsOf
      rw [if_neg hneg]
    rw [hz, mul_zero] at hrs
    omega
  have hc := wordColsOf_pos g hwc
  have hrs0 : 0 ≤ row * wordColsOf g := mul_nonneg hr (by omega)
  have hminl := min_le_left (wordColsOf g) ((g.wordCount : Int) - row * wordColsOf g)
  have hminr := min_le_right (wordColsOf g) ((g.wordCount : Int) - row * wordColsOf g)
  have hmin1 : 1 ≤ min (wordColsOf g) ((g.wordCount : Int) - row * wordColsOf g) :=
    le_min (by omega) (by omega)
  have hcol0 : 0 ≤ col := by omega
  have hcolc : col < wordColsOf g := by omega
  have hpos : (g.sentenceCount : Int) + (row * wordColsOf g + col) -
      (g.sentenceCount : Int) = row * wordColsOf g + col := by ring
  have hdiv := rowDecomp_ediv row col (wordColsOf g) (by omega) hcol0 hcolc
  have hmod := rowDecomp_emod row col (wordColsOf g) (by omega) hcol0 hcolc
  have hnotsen : ¬ (inSentencesOf g ((g.sentenceCount : Int) +
      (row * wordColsOf g + col)) = true) := by
    rw [inSentencesOf, decide_eq_true_eq]
    omega
  have hin : inWordsOf g ((g.sentenceCount : Int) + (row * wordColsOf g + col)) = true := by
    rw [inWordsOf, decide_eq_true_eq]
    omega
  rw [moveSelection_right g _ (by
    have hkc := keyboardCountOf_nonneg g
    have : 0 < totalCountOf g := by
      rw [totalCountOf_parts]
      split <;> omega
    omega)]
  unfold moveRight
  rw [if_neg hnotsen, if_pos hin, hpos, hdiv, hmod]
  rw [if_neg (by omega : ¬ (wordColsOf g ≤ 0))]
  rw [if_neg (by omega : ¬ (min (wordColsOf g)
    ((g.wordCount : Int) - row * wordColsOf g) ≤ 0))]
  rw [if_neg (by omega : ¬ (col + 1 <
    min (wordColsOf g) ((g.wordCount : Int) - row * wordColsOf g)))]

theorem wrapLeft_words (g : GridState) (row : Int) (hr : 0 ≤ row)
    (hrs : row * wordColsOf g < (g.wordCount : Int)) :
    moveSelection g ((g.sentenceCount : Int) + row * wordColsOf g) .left =
      (g.sentenceCount : Int) + row * wordColsOf g +
        min (wordColsOf g) ((g.wordCount : Int) - row * wordColsOf g) - 1 := by
  have hwc : 0 < (g.wordCount : Int) := by
    by_contra hneg
    have hz : wordColsOf g = 0 := by
      unfold wordColsOf
      rw [if_neg hneg]
    rw [hz, mul_zero] at hrs
    omega
  have hc := wordColsOf_pos g hwc
  have hrs0 : 0 ≤ row * wordColsOf g := mul_nonneg hr (by omega)
  have hpos : (g.sentenceCount : Int) + row * wordColsOf g -
      (g.sentenceCount : Int) = row * wordColsOf g := by ring
  have hdiv : row * wordColsOf g / wordColsOf g = row :=
    Int.mul_ediv_cancel row (by omega)
  have hmod : row * wordColsOf g % wordColsOf g = 0 := Int.mul_emod_left row _
  have hin : inWordsOf g ((g.sentenceCount : Int) + row * wordColsOf g) = true := by
    rw [inWordsOf, decide_eq_true_eq]
    omega
  rw [moveSelection_left g _ (by
    have hkc := keyboardCountOf_nonneg g
    have : 0 < totalCountOf g := by
      rw [totalCountOf_parts]
      split <;> omega
    omega)]
  unfold moveLeft
  rw [if_neg (notInKeyboard_low g _ (by omega)), if_neg (notInSubmit_low g _ (by omega)),
    if_pos hin, hpos, hdiv, hmod]
  rw [if_neg (by omega : ¬ (wordColsOf g ≤ 0))]
  rw [if_neg (by omega : ¬ ((0 : Int) < 0))]
  rw [if_neg (by omega : ¬ (min (wordColsOf g)
    ((g.wordCount : Int) - row * wordColsOf g) ≤ 0))]


theorem wrapRight_keyboard (g : GridState) (i : Nat) (o : KeyboardGridOption)
    (hget : (keyboardDataOf g).1.get? i = some o)
    (hcol : o.column = o.rowLength - 1) :
    moveSelection g (keyboardStartOf g + (i : Int)) .right =
      keyboardStartOf g + (o.rowStartIndex : Int) := by
  have hlen : i < (keyboardDataOf g).1.length := by
    rw [List.get?_eq_getElem?] at hget
    exact (List.getElem?_eq_some.mp hget).1
  have hkceq := keyboardCountOf_eq g
  have hcnt : 0 < keyboardCountOf g := by omega
  have hks := keyboardStartOf_eq g hcnt
  have hki : keyboardStartOf g + (i : Int) - keyboardStartOf g = (i : Int) := by ring
  obtain ⟨hs, hl, hcolb, hbound, hidx⟩ :=
    keyboardOption_facts g (i : Int) o (by rw [Int.toNat_ofNat]; exact hget)
      (Int.ofNat_nonneg i) (by exact_mod_cast hlen)
  have hrl1 : 1 ≤ o.rowLength := by omega
  have hcolInt : (o.column : Int) = (o.rowLength : Int) - 1 := by omega
  have hnotsen : ¬ (inSentencesOf g (keyboardStartOf g + (i : Int)) = true) := by
    rw [inSentencesOf, decide_eq_true_eq]
    rintro ⟨h1, h2⟩
    rw [hks] at h2
    revert h2
    cases g.hasSubmit <;> simp <;> omega
  have hnotw : ¬ (inWordsOf g (keyboardStartOf g + (i : Int)) = true) := by
    rw [inWordsOf, decide_eq_true_eq]
    rintro ⟨h1, h2, h3⟩
    rw [hks] at h3
    revert h3
    cases g.hasSubmit <;> simp <;> omega
  have hnotsub : ¬ (inSubmitOf g (keyboardStartOf g + (i : Int)) = true) := by
    rw [inSubmitOf]
    cases hhs : g.hasSubmit
    · simp
    · simp only [Bool.true_and, decide_eq_true_eq]
      rw [submitIndexOf, if_pos hhs, hks, hhs]
      simp
      omega
  have hin : inKeyboardOf g (keyboardStartOf g + (i : Int)) = true := by
    rw [inKeyboardOf, decide_eq_true_eq]
    refine ⟨hcnt, ?_, by omega⟩
    rw [hks]
    cases g.hasSubmit <;> simp <;> omega
  rw [moveSelection_right g _ (by
    have := keyboardStartOf_total g hcnt
    have h2 : 0 ≤ keyboardStartOf g := by
      rw [hks]
      cases g.hasSubmit <;> simp <;> omega
    omega)]
  unfold moveRight
  rw [if_neg hnotsen, if_neg hnotw, if_neg hnotsub, if_pos hin, hki]
  rw [if_pos (⟨Int.ofNat_nonneg i, by exact_mod_cast hlen⟩ :
    0 ≤ (i : Int) ∧ (i : Int) < ((keyboardDataOf g).1.length : Int))]
  rw [Int.toNat_ofNat, hget]
  simp only []
  rw [hl, hs]
  rw [if_pos (by omega : (0 : Int) < (o.rowLength : Int))]
  rw [if_neg (by omega : ¬ ((o.column : Int) + 1 < (o.rowLength : Int)))]

theorem wrapLeft_keyboard (g : GridState) (i : Nat) (o : KeyboardGridOption)
    (hget : (keyboardDataOf g).1.get? i = some o)
    (hcol : o.column = 0) :
    moveSelection g (keyboardStartOf g + (i : Int)) .left =
      keyboardStartOf g + (o.rowStartIndex : Int) + (o.rowLength : Int) - 1 := by
  have hlen : i < (keyboardDataOf g).1.length := by
    rw [List.get?_eq_getElem?] at hget
    exact (List.getElem?_eq_some.mp hget).1
  have hkceq := keyboardCountOf_eq g
  have hcnt : 0 < keyboardCountOf g := by omega
  have hks := keyboardStartOf_eq g hcnt
  have hki : keyboardStartOf g + (i : Int) - keyboardStartOf g = (i : Int) := by ring
  obtain ⟨hs, hl, hcolb, hbound, hidx⟩ :=
    keyboardOption_facts g (i : Int) o (by rw [Int.toNat_ofNat]; exact hget)
      (Int.ofNat_nonneg i) (by exact_mod_cast hlen)
  have hin : inKeyboardOf g (keyboardStartOf g + (i : Int)) = true := by
    rw [inKeyboardOf, decide_eq_true_eq]
    refine ⟨hcnt, ?_, by omega⟩
    rw [hks]
    cases g.hasSubmit <;> simp <;> omega
  rw [moveSelection_left g _ (by
    have := keyboardStartOf_total g hcnt
    have h2 : 0 ≤ keyboardStartOf g := by
      rw [hks]
      cases g.hasSubmit <;> simp <;> omega
    omega)]
  unfold moveLeft
  rw [if_pos hin, hki]
  rw [if_pos (⟨Int.ofNat_nonneg i, by exact_mod_cast hlen⟩ :
    0 ≤ (i : Int) ∧ (i : Int) < ((keyboardDataOf g).1.length : Int))]
  rw [Int.toNat_ofNat, hget]
  simp only []
  rw [hl, hs]
  rw [if_neg (by omega : ¬ ((o.rowLength : Int) ≤ 0))]
  rw [if_neg (by omega : ¬ ((0 : Int) < (o.column : Int)))]

/-- C3 (amended): within a homogeneous row-major section, moving Right from
the last column of a row wraps to the first cell of the same row, and moving
Left from the first column wraps to the last cell of the same row (the index
does not stay unchanged), for every section (sentences, words, keyboard) and
every row.  Rows are described by their start `row * cols` and length
`min cols (count - row * cols)`; keyboard cells by the option stored at
their keyboard index. -/
theorem c3_wrap_within_row_amended :
    (∀ (g : GridState) (row col : Int), 0 ≤ row →
      row * sentenceColsOf g < (g.sentenceCount : Int) →
      col = min (sentenceColsOf g) ((g.sentenceCount : Int) - row * sentenceColsOf g) - 1 →
      moveSelection g (row * sentenceColsOf g + col) .right = row * sentenceColsOf g) ∧
    (∀ (g : GridState) (row : Int), 0 ≤ row →
      row * sentenceColsOf g < (g.sentenceCount : Int) →
      moveSelection g (row * sentenceColsOf g) .left =
        row * sentenceColsOf g +
          min (sentenceColsOf g) ((g.sentenceCount : Int) - row * sentenceColsOf g) - 1) ∧
    (∀ (g : GridState) (row col : Int), 0 ≤ row →
      row * wordColsOf g < (g.wordCount : Int) →
      col = min (wordColsOf g) ((g.wordCount : Int) - row * wordColsOf g) - 1 →
      moveSelection g ((g.sentenceCount : Int) + (row * wordColsOf g + col)) .right =
        (g.sentenceCount : Int) + row * wordColsOf g) ∧
    (∀ (g : GridState) (row : Int), 0 ≤ row →
      row * wordColsOf g < (g.wordCount : Int) →
      moveSelection g ((g.sentenceCount : Int) + row * wordColsOf g) .left =
        (g.sentenceCount : Int) + row * wordColsOf g +
          min (wordColsOf g) ((g.wordCount : Int) - row * wordColsOf g) - 1) ∧
    (∀ (g : GridState) (i : Nat) (o : KeyboardGridOption),
      (keyboardDataOf g).1.get? i = some o →
      o.column = o.rowLength - 1 →
      moveSelection g (keyboardStartOf g + (i : Int)) .right =
        keyboardStartOf g + (o.rowStartIndex : Int)) ∧
    (∀ (g : GridState) (i : Nat) (o : KeyboardGridOption),
      (keyboardDataOf g).1.get? i = some o →
      o.column = 0 →
      moveSelection g (keyboardStartOf g + (i : Int)) .left =
        keyboardStartOf g + (o.rowStartIndex : Int) + (o.rowLength : Int) - 1) :=
  ⟨wrapRight_sentences, wrapLeft_sentences, wrapRight_words, wrapLeft_words,
    wrapRight_keyboard, wrapLeft_keyboard⟩

/-- Witness for the amended C3: on the six-word grid, Right from word
column 2 (index 2) wraps to the row start (index 0); on the demo grid,
Right from the last key of keyboard row 0 wraps to that row's first key. -/
theorem c3_wrap_witness :
    moveSelection c3Grid ((c3Grid.sentenceCount : Int) + (0 * wordColsOf c3Grid + 2)) .right =
      (c3Grid.sentenceCount : Int) + 0 * wordColsOf c3Grid ∧
      moveSelection demoGrid (keyboardStartOf demoGrid + (1 : Nat)) .right =
        keyboardStartOf demoGrid +
          ((⟨"B", some "b", .input, 0, 1, 0, 2, 1⟩ : KeyboardGridOption).rowStartIndex : Int) :=
  ⟨c3_wrap_within_row_amended.2.2.1 c3Grid 0 2 (by decide) (by decide) (by decide),
    c3_wrap_within_row_amended.2.2.2.2.1 demoGrid 1 ⟨"B", some "b", .input, 0, 1, 0, 2, 1⟩
      (by decide) (by decide)⟩

/-! ### Selection reconciliation (App.tsx lines 2671-2705)

The effect recomputes the section sizes and passes the current selection
through an updater: with a non-empty keyboard section it forces the index
into the keyboard range (jumping to the first key when outside), otherwise
it clamps to the last non-keyboard index (0 when the grid is empty). -/

def reconcileSelection (g : GridState) (current : Int) : Int :=
  let sentenceCount : Int := (g.sentenceCount : Int)
  let wordCount : Int := (g.wordCount : Int)
  let submitIndex : Int := if g.hasSubmit then sentenceCount + wordCount else -1
  let keyboardCount : Int :=
    if g.isKeyboardOpen then ((keyboardDataOf g).1.length : Int) else 0
  let keyboardStart : Int :=
    if 0 < keyboardCount then
      (if g.hasSubmit then submitIndex + 1 else sentenceCount + wordCount)
    else -1
  if 0 < keyboardCount then
    let keyboardEnd := keyboardStart + keyboardCount - 1
    if current < keyboardStart ∨ keyboardEnd < current then keyboardStart
    else current
  else
    let maxIndex :=
      if g.hasSubmit then submitIndex else max 0 (sentenceCount + wordCount - 1)
    if maxIndex < 0 then 0 else min current maxIndex

lemma reconcileSelection_keyboard (g : GridState) (current : Int)
    (hk : 0 < keyboardCountOf g) :
    reconcileSelection g current =
      (if current < keyboardStartOf g ∨
          keyboardStartOf g + keyboardCountOf g - 1 < current
        then keyboardStartOf g else current) := by
  have hko : g.isKeyboardOpen = true := by
    by_contra hno
    simp only [keyboardCountOf, Bool.not_eq_true] at hk
    rw [if_neg (by simp [hno])] at hk
    omega
  have hki : 0 < ((keyboardDataOf g).1.length : Int) := by
    have hk2 := hk
    unfold keyboardCountOf at hk2
    rwa [if_pos hko] at hk2
  have hkn : 0 < (keyboardDataOf g).1.length := by exact_mod_cast hki
  unfold reconcileSelection keyboardStartOf submitIndexOf keyboardCountOf
  simp only [hko, if_true]
  cases g.hasSubmit <;> simp [hki, hkn, hk]

/-- C10: whenever the keyboard section is present (keyboard open with at
least one key option), the reconciliation effect forces the selection into
the keyboard section: an index outside the keyboard range is replaced by
the index of the first keyboard option (the keyboard start, not 0 and not a
clamp), and the result always lies inside the keyboard range. -/
theorem c10_keyboard_reconciliation (g : GridState) (current : Int)
    (hk : 0 < keyboardCountOf g) :
    ((current < keyboardStartOf g ∨
        keyboardStartOf g + keyboardCountOf g - 1 < current) →
      reconcileSelection g current = keyboardStartOf g) ∧
    keyboardStartOf g ≤ reconcileSelection g current ∧
    reconcileSelection g current < keyboardStartOf g + keyboardCountOf g := by
  rw [reconcileSelection_keyboard g current hk]
  constructor
  · intro hout
    rw [if_pos hout]
  · by_cases hout : current < keyboardStartOf g ∨
        keyboardStartOf g + keyboardCountOf g - 1 < current
    · rw [if_pos hout]
      omega
    · rw [if_neg hout]
      push_neg at hout
      omega

/-- Witness for C10 on the demo grid (1 sentence, 2 words, submit shown,
keyboard open with 3 keys): from index 0 the reconciliation jumps to the
first keyboard option, index 4. -/
theorem c10_witness :
    0 < keyboardCountOf demoGrid ∧
      reconcileSelection demoGrid 0 = keyboardStartOf demoGrid ∧
      keyboardStartOf demoGrid ≤ reconcileSelection demoGrid 0 ∧
      reconcileSelection demoGrid 0 < keyboardStartOf demoGrid + keyboardCountOf demoGrid :=
  ⟨by decide,
    (c10_keyboard_reconciliation demoGrid 0 (by decide)).1 (by decide),
    (c10_keyboard_reconciliation demoGrid 0 (by decide)).2⟩

/-! ## Session state and the suggestion-fetch lifecycle

The React state touched by `requestSuggestions` (App.tsx lines 612-737) and
`handleSelectGesture` (lines 2343-2462), collected in one record.  Calls the
handlers make to other callbacks (`speakText`, `stopTranscription`,
`startTranscription`, `resetNavigator`, `requestRepeatPrompt`,
`handleKeyboardSelection`, `handleSubmitResponse`, `requestSuggestions`) are
recorded as emitted effects rather than inlined. -/

structure ConversationEntry where
  role : String
  text : String
deriving DecidableEq

structure Session where
  navigatorOptions : List String
  currentSuggestions : List SuggestionNode
  sentenceSuggestions : List SentenceSuggestion
  responseWords : List String
  typedBuffer : String
  currentWordIndex : Int
  isLoadingSuggestions : Bool
  isKeyboardOpen : Bool
  requestId : Nat
  transcript : String
  interimTranscript : String
  activeQuestion : Option String
  conversationHistory : List ConversationEntry
  speechError : Option String

/-- The `responseText` memo (lines 604-610): committed words plus the typed
buffer when nonempty, joined with spaces. -/
def responseTextOf (s : Session) : String :=
  jsJoin " " (s.responseWords ++ (if s.typedBuffer ≠ "" then [s.typedBuffer] else []))

/-- The `trimmedResponse` memo (line 611). -/
def trimmedResponseOf (s : Session) : String := jsTrim (responseTextOf s)

/-- Start of `requestSuggestions` (lines 624-650): resolve the question
(bail out when it trims to empty), bump the request id — the bumped value is
the id the in-flight fetch captures — show the loading message, clear the
suggestion state and mark loading. -/
def requestSuggestionsStart (question : Option String) (loadingMessage : String)
    (s : Session) : Option (Nat × Session) :=
  let resolvedQuestion := jsTrim (question.getD (s.activeQuestion.getD ""))
  if resolvedQuestion = "" then none
  else
    let requestId := s.requestId + 1
    let s1 := { s with requestId := requestId }
    let s2 :=
      if loadingMessage ≠ "" then { s1 with navigatorOptions := [loadingMessage] } else s1
    some (requestId,
      { s2 with
          currentSuggestions := []
          sentenceSuggestions := []
          currentWordIndex := 0
          isLoadingSuggestions := true })

/-- Completion of a successful `requestSuggestions` fetch (lines 666-734):
when the session request id no longer equals the captured one the body
returns before any mutation — and the `finally` clause is guarded by the
same comparison, so the loading flag is untouched too.  Otherwise normalize
the payload, store the sentence and word suggestions, and clear the loading
flag. -/
def completeFetchSuccess (captured : Nat) (data : RawSuggestResponse)
    (s : Session) : Session :=
  if s.requestId ≠ captured then s
  else
    let normalized := normalizeList (data.suggestions.getD [])
    let sentences := normalizeSentencesPipeline (data.sentences.getD [])
    if normalized.length > 0 then
      { s with
          sentenceSuggestions := sentences
          currentSuggestions := normalized
          navigatorOptions := normalized.map SuggestionNode.word
          isLoadingSuggestions := false }
    else
      { s with
          sentenceSuggestions := sentences
          currentSuggestions := []
          navigatorOptions := ["No suggestions available", "Start Typing"]
          isLoadingSuggestions := false }

/-- Completion of a failed `requestSuggestions` fetch (lines 722-734): the
`catch` block and the `finally` clause are both guarded by the captured
request id (which nothing in between changes), so a stale failure mutates
nothing at all. -/
def completeFetchError (captured : Nat) (s : Session) : Session :=
  if s.requestId = captured then
    { s with
        currentSuggestions := []
        sentenceSuggestions := []
        navigatorOptions := ["Unable to load responses", "Start Typing"]
        isLoadingSuggestions := false }
  else s

/-- C5: a fetch completion — success or failure — whose captured request id
differs from the session current request id is discarded: no field of the
session (word section, suggestion frontier, sentence suggestions, loading
flag) is mutated by that completion. -/
theorem c5_stale_response_discarded (captured : Nat) (data : RawSuggestResponse)
    (s : Session) (h : s.requestId ≠ captured) :
    completeFetchSuccess captured data s = s ∧ completeFetchError captured s = s := by
  constructor
  · unfold completeFetchSuccess
    rw [if_pos h]
  · unfold completeFetchError
    rw [if_neg h]

/-- A session holding request id 2 while a fetch captured at id 1 is still
in flight. -/
def staleSession : Session :=
  { navigatorOptions := ["Loading Responses..."], currentSuggestions := [],
    sentenceSuggestions := [], responseWords := ["hello"], typedBuffer := "",
    currentWordIndex := 0, isLoadingSuggestions := true, isKeyboardOpen := false,
    requestId := 2, transcript := "", interimTranscript := "",
    activeQuestion := some "how are you", conversationHistory := [],
    speechError := none }

/-- Witness for C5: the stale session is returned unchanged by both
completion paths of a fetch captured at request id 1. -/
theorem c5_witness :
    staleSession.requestId ≠ 1 ∧
      completeFetchSuccess 1 ⟨none, none⟩ staleSession = staleSession ∧
      completeFetchError 1 staleSession = staleSession :=
  ⟨by decide,
    (c5_stale_response_discarded 1 ⟨none, none⟩ staleSession (by decide)).1,
    (c5_stale_response_discarded 1 ⟨none, none⟩ staleSession (by decide)).2⟩

/-! ## Gesture selection (`handleSelectGesture`, App.tsx lines 2343-2462) -/

/-- Constant of App.tsx line 16. -/
def repeatPromptOption : String := "Ask to repeat again"

/-- Constant of App.tsx line 17. -/
def repeatPromptSpokenText : String := "Can you please repeat that"

/-- Constant of App.tsx line 18. -/
def repeatPromptErrorMessage : String := "We didn\x27t catch that. Please ask them to repeat."

/-- Constant of App.tsx line 19: `REPEAT_PROMPT_OPTION.toLowerCase()`. -/
def repeatPromptNormalized : String := jsToLower repeatPromptOption

/-- An entry of the `gridOptions` memo (lines 738-760), tagged by its
`type` discriminator. -/
inductive NavOption where
  | sentence (style text : String)
  | word (label : String)
  | submit (label : String)
  | keyboard (o : KeyboardGridOption)
deriving DecidableEq

/-- A call `handleSelectGesture` makes to another callback, recorded as an
emitted effect. -/
inductive SelectEffect where
  | keyboardSelection (o : KeyboardGridOption)
  | submitResponse (overrideText : Option String)
  | speak (text : String)
  | stopTranscribe
  | startTranscribe
  | resetNav
  | requestRepeat (message : String)
  | suggestFetch (question partialAnswer conversationContext loadingMessage : String)
deriving DecidableEq

/-- JS array indexing `l[i]`: `undefined` (`none`) when out of range, also
for a negative index. -/
def jsIndex {α : Type} (l : List α) (i : Int) : Option α :=
  if i < 0 then none else l.get? i.toNat

/-- The `gridOptions` memo (lines 738-760): sentence suggestions, then the
word options, then the submit option when the trimmed response is nonempty,
then the keyboard options when the keyboard is open. -/
def gridOptionsOf (s : Session) (keyboardOptions : List KeyboardGridOption) :
    List NavOption :=
  (s.sentenceSuggestions.map (fun sent => NavOption.sentence sent.style sent.text)) ++
    s.navigatorOptions.map NavOption.word ++
    (if trimmedResponseOf s ≠ "" then [NavOption.submit "Submit Response"] else []) ++
    (if s.isKeyboardOpen then keyboardOptions.map NavOption.keyboard else [])

/-- The word-option tail of `handleSelectGesture` (lines 2377-2462): trim
and lower-case the label; ignore empty labels and the loading placeholder;
on the repeat-prompt option speak, clear the speech error and restart
transcription; ignore everything while suggestions are loading; on
"start typing" commit the heard question and fire a fetch; otherwise treat
the pick as a suggestion-tree pick at `safeIndex - sentenceCount`: append
the node word (preceded by the trimmed typed buffer when nonempty) to the
committed response words and replace the frontier with the node children,
or reset the word section to `["Start Typing"]` when childless. -/
def selectWordOption (s : Session) (safeIndex : Int) (label : String) :
    Session × List SelectEffect :=
  let currentOption := jsTrim label
  let normalizedOption := jsToLower currentOption
  if currentOption = "" ∨ normalizedOption = "loading responses..." then (s, [])
  else if normalizedOption = repeatPromptNormalized then
    ({ s with speechError := none },
      [.speak repeatPromptSpokenText, .stopTranscribe, .resetNav, .startTranscribe])
  else if s.isLoadingSuggestions then (s, [])
  else if normalizedOption = "start typing" then
    let questionText :=
      jsTrim (jsJoin " " ([s.transcript, s.interimTranscript].filter
        (fun t => decide (t ≠ ""))))
    if questionText = "" then (s, [.stopTranscribe, .requestRepeat repeatPromptErrorMessage])
    else
      let updatedHistory :=
        match s.conversationHistory.getLast? with
        | none => s.conversationHistory ++ [⟨"guest", questionText⟩]
        | some lastEntry =>
          if lastEntry.role ≠ "guest" ∨ lastEntry.text ≠ questionText then
            s.conversationHistory ++ [⟨"guest", questionText⟩]
          else s.conversationHistory
      let conversationContext :=
        jsJoin "\n" (updatedHistory.map (fun e => e.role ++ ": " ++ e.text))
      ({ s with
          conversationHistory := updatedHistory
          activeQuestion := some questionText },
        [.stopTranscribe,
          .suggestFetch questionText (trimmedResponseOf s) conversationContext
            "Loading Responses..."])
  else if s.currentSuggestions.length = 0 then (s, [])
  else
    let wordIndex : Int := safeIndex - (s.sentenceSuggestions.length : Int)
    if wordIndex < 0 ∨ (s.currentSuggestions.length : Int) ≤ wordIndex then (s, [])
    else
      match jsIndex s.currentSuggestions wordIndex with
      | none => (s, [])
      | some node =>
        if node.word = "" then (s, [])
        else
          let manualWord := jsTrim s.typedBuffer
          let base :=
            if manualWord ≠ "" then s.responseWords ++ [manualWord] else s.responseWords
          if node.next.length > 0 then
            ({ s with
                responseWords := base ++ [node.word]
                typedBuffer := ""
                sentenceSuggestions := []
                currentSuggestions := node.next
                navigatorOptions := node.next.map SuggestionNode.word }, [])
          else
            ({ s with
                responseWords := base ++ [node.word]
                typedBuffer := ""
                sentenceSuggestions := []
                currentSuggestions := []
                navigatorOptions := ["Start Typing"] }, [])

/-- `handleSelectGesture` (lines 2343-2462): bail out on an empty grid;
clamp the selection to `min(currentWordIndex, max(0, length-1))`; dispatch
on the selected option type — keyboard picks delegate to
`handleKeyboardSelection`, submit picks to `handleSubmitResponse` when the
trimmed response is nonempty, sentence picks commit the sentence and submit
it, and word picks fall to `selectWordOption`. -/
def handleSelectGesture (s : Session) (keyboardOptions : List KeyboardGridOption) :
    Session × List SelectEffect :=
  if (gridOptionsOf s keyboardOptions).length = 0 then (s, [])
  else
    let safeIndex :=
      min s.currentWordIndex (max 0 (((gridOptionsOf s keyboardOptions).length : Int) - 1))
    match jsIndex (gridOptionsOf s keyboardOptions) safeIndex with
    | none => (s, [])
    | some (.keyboard o) => (s, [.keyboardSelection o])
    | some (.submit _) =>
      if trimmedResponseOf s ≠ "" then (s, [.submitResponse none]) else (s, [])
    | some (.sentence _ text) =>
      if jsTrim text = "" then (s, [])
      else
        ({ s with
            typedBuffer := ""
            responseWords := [jsTrim text]
            sentenceSuggestions := []
            currentSuggestions := []
            navigatorOptions := []
            currentWordIndex := 0 },
          [.submitResponse (some (jsTrim text))])
    | some (.word label) => selectWordOption s safeIndex label

/-- A perfectly well-formed suggestion-tree node whose word happens to equal
the loading placeholder label. -/
def loadingNode : SuggestionNode := .mk "Loading responses..." [.mk "please" []]

/-- A session whose single word option is backed by `loadingNode`. -/
def interceptSession : Session :=
  { navigatorOptions := ["Loading responses..."]
    currentSuggestions := [loadingNode]
    sentenceSuggestions := []
    responseWords := []
    typedBuffer := ""
    currentWordIndex := 0
    isLoadingSuggestions := false
    isKeyboardOpen := false
    requestId := 0
    transcript := ""
    interimTranscript := ""
    activeQuestion := none
    conversationHistory := []
    speechError := none }

/-- C7 counterexample: the selected word option is backed by the
suggestion-tree node `loadingNode`, which has a child, yet
`handleSelectGesture` returns the session unchanged with no effects —
nothing is appended to the response words and the frontier is not replaced,
because the label matches the reserved loading placeholder
`"loading responses..."` (line 2380) and the handler returns early. -/
theorem c7_counterexample :
    interceptSession.currentSuggestions = [loadingNode] ∧
    loadingNode.next.map SuggestionNode.word = ["please"] ∧
    handleSelectGesture interceptSession [] = (interceptSession, []) :=
  ⟨rfl, rfl, rfl⟩

lemma selectWordOption_pick (s : Session) (wi : Nat) (node : SuggestionNode)
    (hnode : s.currentSuggestions.get? wi = some node)
    (htrim : jsTrim node.word ≠ "")
    (hres1 : jsToLower (jsTrim node.word) ≠ "loading responses...")
    (hres2 : jsToLower (jsTrim node.word) ≠ repeatPromptNormalized)
    (hres3 : jsToLower (jsTrim node.word) ≠ "start typing")
    (hload : s.isLoadingSuggestions = false)
    (hword : node.word ≠ "") :
    selectWordOption s ((s.sentenceSuggestions.length : Int) + (wi : Int)) node.word =
      ({ s with
          responseWords :=
            (if jsTrim s.typedBuffer ≠ "" then s.responseWords ++ [jsTrim s.typedBuffer]
              else s.responseWords) ++ [node.word]
          typedBuffer := ""
          sentenceSuggestions := []
          currentSuggestions := if node.next.length > 0 then node.next else []
          navigatorOptions :=
            if node.next.length > 0 then node.next.map SuggestionNode.word
            else ["Start Typing"] }, []) := by
  have hwi : wi < s.currentSuggestions.length := by
    have hnode2 := hnode
    rw [List.get?_eq_getElem?] at hnode2
    exact (List.getElem?_eq_some.mp hnode2).1
  have hlen0 : ¬ s.currentSuggestions.length = 0 := by omega
  simp only [selectWordOption]
  rw [if_neg (by push_neg; exact ⟨htrim, hres1⟩), if_neg hres2,
    if_neg (by simp [hload]), if_neg hres3, if_neg hlen0]
  rw [show (s.sentenceSuggestions.length : Int) + (wi : Int) -
      (s.sentenceSuggestions.length : Int) = (wi : Int) from by omega]
  rw [if_neg (by omega)]
  unfold jsIndex
  rw [if_neg (by omega)]
  rw [show ((wi : Int)).toNat = wi from by omega]
  rw [hnode]
  simp only []
  rw [if_neg hword]
  rcases Nat.lt_or_ge 0 node.next.length with hnx | hnx
  · rw [if_pos hnx, if_pos hnx, if_pos hnx]
  · have hnx2 : ¬ node.next.length > 0 := by omega
    rw [if_neg hnx2, if_neg hnx2, if_neg hnx2]

/-- C7 (amended): selecting a word option backed by a suggestion-tree node
appends that node's word to the committed response words (preceded by the
trimmed typed buffer when nonempty) and replaces the word section with
exactly the words of the node's children, or with the single start-prompt
option `["Start Typing"]` when the node is childless — provided the picked
label is not one of the reserved labels the handler intercepts (the empty
label, the loading placeholder, the repeat-prompt option, `"start typing"`)
and suggestions are not currently loading. -/
theorem c7_tree_pick_amended (s : Session) (kb : List KeyboardGridOption)
    (wi : Nat) (node : SuggestionNode)
    (hnav : s.navigatorOptions = s.currentSuggestions.map SuggestionNode.word)
    (hidx : s.currentWordIndex = (s.sentenceSuggestions.length : Int) + (wi : Int))
    (hnode : s.currentSuggestions.get? wi = some node)
    (htrim : jsTrim node.word ≠ "")
    (hres1 : jsToLower (jsTrim node.word) ≠ "loading responses...")
    (hres2 : jsToLower (jsTrim node.word) ≠ repeatPromptNormalized)
    (hres3 : jsToLower (jsTrim node.word) ≠ "start typing")
    (hload : s.isLoadingSuggestions = false)
    (hword : node.word ≠ "") :
    handleSelectGesture s kb =
      ({ s with
          responseWords :=
            (if jsTrim s.typedBuffer ≠ "" then s.responseWords ++ [jsTrim s.typedBuffer]
              else s.responseWords) ++ [node.word]
          typedBuffer := ""
          sentenceSuggestions := []
          currentSuggestions := if node.next.length > 0 then node.next else []
          navigatorOptions :=
            if node.next.length > 0 then node.next.map SuggestionNode.word
            else ["Start Typing"] }, []) := by
  have hwi : wi < s.currentSuggestions.length := by
    have hnode2 := hnode
    rw [List.get?_eq_getElem?] at hnode2
    exact (List.getElem?_eq_some.mp hnode2).1
  have hnavlen : s.navigatorOptions.length = s.currentSuggestions.length := by
    rw [hnav, List.length_map]
  have ha : (s.sentenceSuggestions.map
      (fun sent => NavOption.sentence sent.style sent.text)).length =
      s.sentenceSuggestions.length := List.length_map _ _
  have hb : (s.navigatorOptions.map NavOption.word).length =
      s.navigatorOptions.length := List.length_map _ _
  have hlen : (gridOptionsOf s kb).length =
      s.sentenceSuggestions.length + s.navigatorOptions.length +
        (if trimmedResponseOf s ≠ "" then [NavOption.submit "Submit Response"]
          else []).length +
        (if s.isKeyboardOpen then kb.map NavOption.keyboard else []).length := by
    unfold gridOptionsOf
    rw [List.length_append, List.length_append, List.length_append, ha, hb]
  have hcwi_lt : s.currentWordIndex < ((gridOptionsOf s kb).length : Int) := by
    rw [hidx, hlen]
    push_cast
    omega
  have hcwi_nonneg : 0 ≤ s.currentWordIndex := by
    rw [hidx]
    omega
  have hne0 : ¬ (gridOptionsOf s kb).length = 0 := by omega
  have hsafe : min s.currentWordIndex
      (max 0 (((gridOptionsOf s kb).length : Int) - 1)) = s.currentWordIndex := by
    have h1 : s.currentWordIndex ≤ ((gridOptionsOf s kb).length : Int) - 1 := by omega
    exact min_eq_left (h1.trans (le_max_right _ _))
  have htn : s.currentWordIndex.toNat = s.sentenceSuggestions.length + wi := by
    rw [hidx]
    omega
  have hnavget : s.navigatorOptions.get? wi = some node.word := by
    rw [hnav, List.get?_map, hnode]
    rfl
  have hget : (gridOptionsOf s kb).get? (s.sentenceSuggestions.length + wi) =
      some (NavOption.word node.word) := by
    unfold gridOptionsOf
    rw [List.get?_append (by rw [List.length_append, List.length_append, ha, hb]; omega),
      List.get?_append (by rw [List.length_append, ha, hb]; omega),
      List.get?_append_right (by rw [ha]; omega)]
    rw [ha, Nat.add_sub_cancel_left, List.get?_map, hnavget]
    rfl
  have hjs : jsIndex (gridOptionsOf s kb) s.currentWordIndex =
      some (NavOption.word node.word) := by
    unfold jsIndex
    rw [if_neg (by omega), htn]
    exact hget
  simp only [handleSelectGesture]
  rw [if_neg hne0, hsafe, hjs]
  simp only []
  have hfin := selectWordOption_pick s wi node hnode htrim hres1 hres2 hres3 hload hword
  rw [← hidx] at hfin
  exact hfin

/-- The node of the spec's own example: word `"coffee"` with children
`"please"` and `"black"`. -/
def coffeeNode : SuggestionNode := .mk "coffee" [.mk "please" [], .mk "black" []]

/-- A session whose single word option is backed by `coffeeNode`. -/
def pickSession : Session :=
  { navigatorOptions := ["coffee"]
    currentSuggestions := [coffeeNode]
    sentenceSuggestions := []
    responseWords := ["I", "want"]
    typedBuffer := ""
    currentWordIndex := 0
    isLoadingSuggestions := false
    isKeyboardOpen := false
    requestId := 0
    transcript := ""
    interimTranscript := ""
    activeQuestion := none
    conversationHistory := []
    speechError := none }

/-- Witness for the amended C7: picking `"coffee"` appends it to the
response words and replaces the word section with `["please", "black"]`. -/
theorem c7_witness :
    pickSession.navigatorOptions = pickSession.currentSuggestions.map SuggestionNode.word ∧
    pickSession.currentSuggestions.get? 0 = some coffeeNode ∧
    handleSelectGesture pickSession [] =
      ({ pickSession with
          responseWords :=
            (if jsTrim pickSession.typedBuffer ≠ ""
              then pickSession.responseWords ++ [jsTrim pickSession.typedBuffer]
              else pickSession.responseWords) ++ [coffeeNode.word]
          typedBuffer := ""
          sentenceSuggestions := []
          currentSuggestions := if coffeeNode.next.length > 0 then coffeeNode.next else []
          navigatorOptions :=
            if coffeeNode.next.length > 0 then coffeeNode.next.map SuggestionNode.word
            else ["Start Typing"] }, []) :=
  ⟨rfl, rfl,
    c7_tree_pick_amended pickSession [] 0 coffeeNode rfl (by decide) rfl (by decide)
      (by decide) (by decide) (by decide) rfl (by decide)⟩

end VoiceLink
